import Mathlib

set_option maxHeartbeats 1000000
set_option maxRecDepth 100000
set_option linter.unreachableTactic false
set_option linter.unusedTactic false

attribute [local semireducible] Rat.add Rat.mul Rat.inv Rat.sub

/-!
Shallow embedding of the adaptive problem-selection engine of `fastmath.py`
(repository `michaelkrauty/fastmath`), together with theorems settling the
frozen specification claims.

Modelling conventions:
* Machine integers are `Int`/`Nat`; Python float arithmetic on the small
  decimal constants of this program is modelled exactly over `Rat`.
* Python `%` on integers agrees with `Int.emod` for the positive moduli used
  here; Python `//` agrees with `Int.ediv` on the nonnegative values used here.
* Randomness is modelled by a finite stream of raw natural-number draws
  (`Rng`).  `random.randint a b` maps a draw `x` to `a + x % (b - a + 1)`,
  which realises exactly the interval `[a, b]` when `a ≤ b`; on an empty
  range (where CPython raises `ValueError`) the model returns `a`.
  `random.random()` comparisons map a draw `x` to the rational
  `(x % 1000) / 1000 ∈ [0, 1)`, which can fall on either side of every
  probability threshold appearing in the program (all are multiples of
  `1/1000`).
* The problem string `"num1 op num2"` and its parsed fields are identified:
  problems are structured records, as every string produced by the program is
  of that exact shape and is parsed back into the same three components.
-/

/-- The four arithmetic operators `+`, `-`, `*`, `/` of the program. -/
inductive Op where
  | add
  | sub
  | mul
  | div
  deriving DecidableEq, Repr

/-- Evaluate `a op b` over the integers.  For `div` this is the integer
quotient; the engine only ever evaluates exact divisions. -/
def Op.apply : Op → Int → Int → Int
  | .add, a, b => a + b
  | .sub, a, b => a - b
  | .mul, a, b => a * b
  | .div, a, b => a / b

/-- A problem as displayed and as re-parsed from its display string:
`"num1 op num2"`. -/
structure Problem where
  num1 : Int
  op : Op
  num2 : Int
  deriving DecidableEq, Repr

/-- One logged attempt record (an element of `performance_data`).  The
derived `typing_time_estimate` field of the JSON record is omitted: no part
of the selection engine reads it back.  `timestamp` is in seconds. -/
structure Entry where
  num1 : Int
  op : Op
  num2 : Int
  correct : Bool
  time_taken : Rat
  difficulty : Nat
  timestamp : Rat
  deriving DecidableEq, Repr

/-- A finite stream of raw random draws; exhausting it yields `0`s. -/
abbrev Rng := List Nat

/-- Take one raw draw from the stream. -/
def Rng.next : Rng → Nat × Rng
  | [] => (0, [])
  | x :: r => (x, r)

/-- Model of `random.randint(a, b)` (inclusive bounds).  On an empty range,
where CPython raises `ValueError`, the model returns `a`. -/
def randInt (a b : Int) (g : Rng) : Int × Rng :=
  let r := g.next
  (if a ≤ b then a + (r.1 : Int) % (b - a + 1) else a, r.2)

/-- Model of a `random.random()` draw: a rational in `[0, 1)` with
resolution `1/1000`, fine enough to realise both sides of every probability
threshold used by the program. -/
def randFloat (g : Rng) : Rat × Rng :=
  let r := g.next
  (((r.1 % 1000 : Nat) : Rat) / 1000, r.2)

/-- Model of `random.choice(l)` for nonempty `l`; the default is only
returned when `l` is empty (never the case at the call sites). -/
def randChoice {α : Type} (l : List α) (dflt : α) (g : Rng) : α × Rng :=
  let r := g.next
  (l.getD (r.1 % l.length) dflt, r.2)

/-- Python slice `l[-n:]`. -/
def lastN {α : Type} (n : Nat) (l : List α) : List α := l.drop (l.length - n)

/-- Decimal digit count of a natural number, by structural recursion on a
fuel bound (`n < 10 ^ (n + 1)` always holds, so the fuel never runs out). -/
def natDigitLen (fuel n : Nat) : Nat :=
  match fuel with
  | 0 => 1
  | fuel + 1 => if n < 10 then 1 else natDigitLen fuel (n / 10) + 1

/-- Length of the decimal string `str(n)` of an integer (sign included). -/
def digitLen (n : Int) : Nat :=
  (if n < 0 then 1 else 0) + natDigitLen n.natAbs n.natAbs

/-- `estimate_typing_time` applied to a string of the given length:
`0.5 + 0.2 * len`. -/
def estimate_typing_time (len : Nat) : Rat := 1/2 + (len : Rat) * (1/5)

/-- The numeric range bound of `generate_problem` and
`smart_generate_problem`: `int(5 * 1.1 ** (difficulty - 1))` (truncation
toward zero, which is the floor on these positive values). -/
def adjusted_max_val (difficulty : Nat) : Int :=
  ⌊(5 : Rat) * (11/10) ^ (difficulty - 1)⌋

/-- The smart path additionally enforces a floor of 10:
`adjusted_max_val = max(adjusted_max_val, 10)`. -/
def smart_adjusted_max_val (difficulty : Nat) : Int :=
  max (adjusted_max_val difficulty) 10

/-- Embedding of `generate_problem(operation, difficulty, allow_negative)`:
the plain random generator. -/
def generate_problem (operation : Op) (difficulty : Nat) (allow_negative : Bool)
    (g : Rng) : (Problem × Int) × Rng :=
  let amv := adjusted_max_val difficulty
  match operation with
  | .add =>
      let r1 := randInt 1 amv g
      let r2 := randInt 1 amv r1.2
      ((⟨r1.1, .add, r2.1⟩, r1.1 + r2.1), r2.2)
  | .sub =>
      let r1 := randInt 1 amv g
      let r2 := if !allow_negative then randInt 1 r1.1 r1.2 else randInt 1 amv r1.2
      ((⟨r1.1, .sub, r2.1⟩, r1.1 - r2.1), r2.2)
  | .mul =>
      let r1 := randInt 1 amv g
      let r2 := randInt 1 amv r1.2
      ((⟨r1.1, .mul, r2.1⟩, r1.1 * r2.1), r2.2)
  | .div =>
      let r2 := randInt 1 amv g
      let ra := randInt 1 amv r2.2
      ((⟨r2.1 * ra.1, .div, r2.1⟩, ra.1), ra.2)

/-- Embedding of `is_trivial_problem(num1, op, num2)`.  The final clause
reads the per-operation difficulty from the global `config`, passed here
explicitly as `difficulties`. -/
def is_trivial_problem (difficulties : Op → Nat) (num1 : Int) (op : Op) (num2 : Int) : Bool :=
  if op = .div ∧ num2 = 1 then true
  else if op = .mul ∧ (num1 = 1 ∨ num2 = 1) then true
  else if op = .add ∧ (num1 = 0 ∨ num2 = 0) then true
  else if op = .sub ∧ num1 = num2 then true
  else if op = .sub ∧ num1 = 0 then true
  else if op = .div ∧ num1 = num2 ∧ num1 ≠ 0 then true
  else if op = .div ∧ num1 = 0 then true
  else if 3 < difficulties op ∧ max num1 num2 < 5 then true
  else false

/-- The six error-pattern categories of `check_error_patterns`, in the
insertion order of the Python `patterns` dictionary. -/
inductive Pattern where
  | carrying
  | borrowing
  | multiplication_tables
  | division_remainder
  | large_numbers
  | zero_handling
  deriving DecidableEq, Repr

/-- Whether one incorrect record increments the tally of a given pattern in
`check_error_patterns` (the body of its `for entry in recent_errors` loop,
written condition for condition). -/
def tally (e : Entry) : Pattern → Bool
  | .carrying =>
      decide (e.op = .add ∧ (10 ≤ e.num1 ∨ 10 ≤ e.num2) ∧ 10 ≤ e.num1 % 10 + e.num2 % 10)
  | .borrowing =>
      decide (e.op = .sub ∧ 10 ≤ e.num1 ∧ e.num1 % 10 < e.num2 % 10)
  | .multiplication_tables =>
      decide (e.op = .mul ∧ 1 ≤ e.num1 ∧ e.num1 ≤ 12 ∧ 1 ≤ e.num2 ∧ e.num2 ≤ 12)
  | .division_remainder =>
      decide (e.op = .div ∧ e.num1 % e.num2 ≠ 0)
  | .large_numbers =>
      decide (e.op = .mul ∧ (100 < e.num1 ∨ 100 < e.num2))
  | .zero_handling =>
      decide (e.num1 = 0 ∨ e.num2 = 0 ∨ ((e.op = .add ∨ e.op = .mul) ∧ (e.num1 = 0 ∨ e.num2 = 0)))

/-- The incorrect records among the last 30 entries. -/
def recent_errors (pd : List Entry) : List Entry :=
  (lastN 30 pd).filter (fun e => !e.correct)

/-- The tally accumulated for one pattern over the recent errors. -/
def patternCount (pd : List Entry) (p : Pattern) : Nat :=
  ((recent_errors pd).filter (fun e => tally e p)).length

/-- Dictionary insertion order of the `patterns` dictionary. -/
def patternOrder : List Pattern :=
  [.carrying, .borrowing, .multiplication_tables, .division_remainder,
   .large_numbers, .zero_handling]

/-- Python `max(patterns.items(), key=...)`: the first pattern, in insertion
order, attaining the maximal tally. -/
def most_common_pattern (pd : List Entry) : Pattern :=
  patternOrder.foldl (fun acc p => if patternCount pd acc < patternCount pd p then p else acc)
    .carrying

/-- Embedding of `check_error_patterns()`. -/
def check_error_patterns (pd : List Entry) : Option Pattern :=
  if pd.length < 10 then none
  else if (recent_errors pd).length < 3 then none
  else if ((recent_errors pd).length : Rat) * (1/5) ≤ (patternCount pd (most_common_pattern pd) : Rat)
  then some (most_common_pattern pd)
  else none

/-- The persisted configuration record. -/
structure Config where
  operations : Op → Bool
  difficulties : Op → Nat
  allow_negative : Bool

/-- The `default_config` literal of `load_config`. -/
def default_config : Config :=
  { operations := fun _ => true, difficulties := fun _ => 1, allow_negative := true }

/-- State of a persisted file: absent, present but not valid JSON, or
present with parseable content. -/
inductive FileState (α : Type) where
  | missing
  | malformed
  | wellFormed (a : α)

/-- Embedding of `load_config()`: a missing file yields the default; an
existing file is fed to `json.load`, which raises on malformed content
(modelled as `Except.error`). -/
def load_config (f : FileState Config) : Except Unit Config :=
  match f with
  | .missing => .ok default_config
  | .malformed => .error ()
  | .wellFormed c => .ok c

/-- Embedding of `load_performance_data()`: a missing file yields the empty
history; an existing file is fed to `json.load`, which raises on malformed
content. -/
def load_performance_data (f : FileState (List Entry)) : Except Unit (List Entry) :=
  match f with
  | .missing => .ok []
  | .malformed => .error ()
  | .wellFormed l => .ok l

/-- The time-decayed weight of one record in `get_problem_weights`:
`max(0, (24 - hours_since) / (18 * difficulty))`. -/
def time_weight (now : Rat) (e : Entry) : Rat :=
  max 0 ((24 - (now - e.timestamp) / 3600) / (18 * (e.difficulty : Rat)))

/-- The records of one operator, in history order. -/
def opEntries (pd : List Entry) (o : Op) : List Entry :=
  pd.filter (fun e => decide (e.op = o))

/-- Embedding of `get_problem_weights()`, per operator: `none` when the
operator has no history (absent dictionary key), otherwise the clamped
weight `max(1, min((1 / (accuracy + 0.1)) * avg_difficulty, 5))`. -/
def get_problem_weights (pd : List Entry) (now : Rat) (o : Op) : Option Rat :=
  let es := opEntries pd o
  if es.length = 0 then none
  else
    let correct_weight := ((es.filter (fun e => e.correct)).map (time_weight now)).sum
    let attempts : Rat := es.length
    let avg_difficulty := (es.map (fun e => (e.difficulty : Rat))).sum / attempts
    let accuracy := correct_weight / attempts
    let weight := (1 / (accuracy + 1/10)) * avg_difficulty
    some (max 1 (min weight 5))

/-- The weight the caller in `main_game` actually uses:
`problem_weights.get(op, 1)`. -/
def problem_weight_with_default (pd : List Entry) (now : Rat) (o : Op) : Rat :=
  (get_problem_weights pd now o).getD 1

/-- Arithmetic mean of a list of rationals (`statistics.mean`). -/
def sampleMean (ts : List Rat) : Rat := ts.sum / (ts.length : Rat)

/-- Sample variance with Bessel correction, the square of
`statistics.stdev`; only used under a `1 < length` guard. -/
def sampleVar (ts : List Rat) : Rat :=
  ((ts.map fun t => (t - sampleMean ts) ^ 2).sum) / ((ts.length - 1 : Nat) : Rat)

/-- Decision `z_score ≤ -0.5` of `log_attempt`, where
`z_score = (t - mean) / stdev` if the window has at least two samples and a
positive deviation and `0` otherwise.  Since `stdev = sqrt variance > 0`,
`(t - mean)/stdev ≤ -1/2` is equivalent to the square-free condition
`t ≤ mean ∧ variance ≤ 4 * (mean - t)^2`, which is exact over `ℚ`. -/
def zLeNegHalf (ts : List Rat) (t : Rat) : Bool :=
  decide (1 < ts.length ∧ 0 < sampleVar ts ∧ t ≤ sampleMean ts ∧
    sampleVar ts ≤ 4 * (sampleMean ts - t) ^ 2)

/-- Decision `z_score ≥ 0.5` of `log_attempt`, square-free as in
`zLeNegHalf`. -/
def zGeHalf (ts : List Rat) (t : Rat) : Bool :=
  decide (1 < ts.length ∧ 0 < sampleVar ts ∧ sampleMean ts ≤ t ∧
    sampleVar ts ≤ 4 * (t - sampleMean ts) ^ 2)

/-- The window `[x for x in performance_data if x.op == o][-20:]` used by
`log_attempt` (computed after the new entry is appended). -/
def recent_window (pd : List Entry) (o : Op) : List Entry := lastN 20 (opEntries pd o)

/-- `recent_correct / len(recent_attempts)` over a window. -/
def recent_accuracy (w : List Entry) : Rat :=
  ((w.filter (fun e => e.correct)).length : Rat) / (w.length : Rat)

/-- Embedding of `log_attempt(problem, correct, time_taken, difficulty)`:
appends the record, then recomputes the difficulty of the problem's operator
from the last 20 records of that operator (which include the new one).
Returns the new history and the new difficulty table. -/
def log_attempt (pd : List Entry) (difficulties : Op → Nat) (prob : Problem)
    (correct : Bool) (time_taken : Rat) (difficulty : Nat) (now : Rat) :
    List Entry × (Op → Nat) :=
  let entry : Entry :=
    { num1 := prob.num1, op := prob.op, num2 := prob.num2, correct := correct,
      time_taken := time_taken, difficulty := difficulty, timestamp := now }
  let pd2 := pd ++ [entry]
  let recent := recent_window pd2 prob.op
  let times := recent.map (fun e => e.time_taken)
  let newDiff :=
    if 3/4 < recent_accuracy recent ∧ zLeNegHalf times time_taken then
      difficulties prob.op + 1
    else if recent_accuracy recent < 3/5 ∨ zGeHalf times time_taken then
      max 1 (difficulties prob.op - 1)
    else difficulties prob.op
  (pd2, fun o => if o = prob.op then newDiff else difficulties o)

/-- Embedding of `get_specific_problem_history(num1, operation, num2)`: the
exact-match records and, for the commutative operators, the operand-swapped
"similar" records.  A record with `num1 = num2` matching both conditions
appears in both lists, as in the source. -/
def get_specific_problem_history (pd : List Entry) (num1 : Int) (op : Op) (num2 : Int) :
    List Entry × List Entry :=
  (pd.filter fun e => decide (e.num1 = num1 ∧ e.op = op ∧ e.num2 = num2),
   pd.filter fun e => decide ((op = .add ∨ op = .mul) ∧ e.num1 = num2 ∧ e.op = op ∧ e.num2 = num1))

/-- Factor 1 of `evaluate_problem_difficulty`: base score 1.0 plus the
capped exact-wrong bonus `min(0.5 * exact_wrong, 2.0)` when there are wrong
attempts. -/
def exactWrongStage (exact_wrong : Nat) : Rat :=
  if 0 < exact_wrong then 1 + min ((exact_wrong : Rat) * (1/2)) 2 else 1

/-- Factor 2 of `evaluate_problem_difficulty`: subtract
`0.3 * exact_correct`, floored at 0.5, when there are correct attempts. -/
def exactCorrectStage (s : Rat) (exact_correct : Nat) : Rat :=
  if 0 < exact_correct then max (1/2) (s - (3/10) * (exact_correct : Rat)) else s

/-- Factor 3 of `evaluate_problem_difficulty`: the similar-history bonus
and penalty, applied only under the guard
`operation in ['+','*'] and similar_history`. -/
def similarStage (s : Rat) (similar_wrong similar_correct : Nat) (useSimilar : Bool) : Rat :=
  if useSimilar then
    let s3 := if 0 < similar_wrong then s + min ((similar_wrong : Rat) * (3/10)) 1 else s
    if 0 < similar_correct then max (3/10) (s3 - (1/5) * (similar_correct : Rat)) else s3
  else s

/-- Factors 1-3 of `evaluate_problem_difficulty`: the running score after
the exact-history and similar-history adjustments, as a function of the four
counts. -/
def historyFactorScore (exact_wrong exact_correct similar_wrong similar_correct : Nat)
    (useSimilar : Bool) : Rat :=
  similarStage (exactCorrectStage (exactWrongStage exact_wrong) exact_correct)
    similar_wrong similar_correct useSimilar

/-- The value/format pair of `str(eval(f"{num1} {op} {num2}"))`: Python
`eval` of a division is a float (printed `"7.0"`), every other operator an
int, so two such strings are equal exactly when the operator class (float or
int) and the numeric value agree.  The engine only compares these strings on
exact divisions, where the rational value determines the float exactly. -/
def answerRepr (num1 : Int) (op : Op) (num2 : Int) : Rat × Bool :=
  match op with
  | .div => ((num1 : Rat) / (num2 : Rat), true)
  | _ => ((op.apply num1 num2 : Rat), false)

/-- Timestamp of the last element of the combined history after a stable
sort by timestamp, i.e. the maximal timestamp (0 for an empty list; only
used on nonempty lists). -/
def latest_timestamp : List Entry → Rat
  | [] => 0
  | e :: es => es.foldl (fun a x => max a x.timestamp) e.timestamp

/-- Embedding of `evaluate_problem_difficulty(num1, operation, num2,
normalized_typing_time)` over the history `pd`, with `datetime.now()`
passed explicitly as `now` (seconds). -/
def evaluate_problem_difficulty (pd : List Entry) (now : Rat) (num1 : Int) (op : Op)
    (num2 : Int) (normalized_typing_time : Rat) : Rat :=
  let hist := get_specific_problem_history pd num1 op num2
  let exact_history := hist.1
  let similar_history := hist.2
  let exact_wrong := (exact_history.filter fun e => !e.correct).length
  let exact_correct := (exact_history.filter fun e => e.correct).length
  let similar_wrong := (similar_history.filter fun e => !e.correct).length
  let similar_correct := (similar_history.filter fun e => e.correct).length
  let useSimilar := decide (op = .add ∨ op = .mul) && !similar_history.isEmpty
  let score := historyFactorScore exact_wrong exact_correct similar_wrong similar_correct useSimilar
  let last_five := lastN 5 pd
  let recent_answers := last_five.map fun e => answerRepr e.num1 e.op e.num2
  let current_answer := answerRepr num1 op num2
  let score := if current_answer ∈ recent_answers then score * (7/10) else score
  let score :=
    if exact_history.isEmpty && similar_history.isEmpty then score
    else
      let combined := exact_history ++ similar_history
      let days_since_last_seen := (now - latest_timestamp combined) / (24 * 3600)
      let correct_ratio := ((combined.filter fun e => e.correct).length : Rat) / (combined.length : Rat)
      let optimal_interval : Rat := 1 + correct_ratio * 5
      let due_factor := days_since_last_seen / optimal_interval
      if due_factor < 1/2 then score * (1/2)
      else if 4/5 < due_factor ∧ due_factor < 6/5 then score * (3/2)
      else if 2 < due_factor then score * (13/10)
      else score
  score * (1 + normalized_typing_time * (3/10))

/-- Embedding of `is_common_pattern(num1, op, num2)`.  The halving test is
Python float division `num1 / num2 == 2`, exact over `ℚ` (division by zero,
which would raise, does not occur at the call sites: generated divisors are
at least 2). -/
def is_common_pattern (num1 : Int) (op : Op) (num2 : Int) : Bool :=
  decide (op = .mul ∧ 2 ≤ num1 ∧ num1 ≤ 10 ∧ 2 ≤ num2 ∧ num2 ≤ 10) ||
  decide (op = .add ∧ (num1 = 9 ∨ num2 = 9)) ||
  decide (op = .sub ∧ num1 % 10 = 9) ||
  decide (op = .sub ∧ (num1 = 10 ∨ num1 = 20 ∨ num1 = 50 ∨ num1 = 100 ∨ num1 = 200 ∨
    num1 = 500 ∨ num1 = 1000) ∧ num2 < 10) ||
  decide (op = .add ∧ num1 = num2) ||
  decide (op = .div ∧ (num1 : Rat) / (num2 : Rat) = 2) ||
  decide (op = .mul ∧ (num1 = 9 ∨ num1 = 11 ∨ num2 = 9 ∨ num2 = 11)) ||
  decide (op = .div ∧ num1 % 10 = 0 ∧ 1 < num2)

/-- The operand values appearing among the last 10 records (the
`recent_nums` set of `adjust_problem_score`; list membership is used in
place of the Python set, which is equivalent). -/
def recent_nums (pd : List Entry) : List Int :=
  (lastN 10 pd).foldr (fun e acc => e.num1 :: e.num2 :: acc) []

/-- Embedding of `adjust_problem_score(num1, op, num2, score,
user_difficulty_level)`. -/
def adjust_problem_score (pd : List Entry) (num1 : Int) (op : Op) (num2 : Int)
    (score : Rat) (user_difficulty_level : Nat) : Rat :=
  let s1 := if is_common_pattern num1 op num2 then score * (3/2) else score
  let s2 :=
    if user_difficulty_level ≤ 3 then
      let a := if (op = .add ∨ op = .sub) ∧ max num1 num2 ≤ 10 then s1 * (6/5) else s1
      if (op = .mul ∨ op = .div) ∧ max num1 num2 ≤ 5 then a * (6/5) else a
    else if 4 ≤ user_difficulty_level ∧ user_difficulty_level ≤ 7 then
      let a := if (op = .add ∨ op = .sub) ∧ 10 ≤ max num1 num2 ∧ max num1 num2 ≤ 20
        then s1 * (6/5) else s1
      if op = .mul ∧ 5 ≤ max num1 num2 ∧ max num1 num2 ≤ 12 then a * (6/5) else a
    else
      if 20 ≤ max num1 num2 then s1 * (11/10) else s1
  let s3 := if op = .add ∧ num1 + num2 = 10 then s2 * (13/10) else s2
  let s4 := if op = .add ∧ num1 + num2 = 100 then s3 * (13/10) else s3
  if num1 ∈ recent_nums pd ∧ num2 ∈ recent_nums pd then s4 * (7/10) else s4

/-- Embedding of `generate_targeted_problem(pattern_type, max_val,
allow_negative)`: `none` models the `(None, None)` fallback result. -/
def generate_targeted_problem (pattern_type : Pattern) (max_val : Int)
    (allow_negative : Bool) (g : Rng) : Option (Problem × Int) × Rng :=
  match pattern_type with
  | .carrying =>
      let r1 := randInt 1 (min max_val 90) g
      let r2 := randInt (10 - r1.1 % 10) (min max_val 99) r1.2
      (some (⟨r1.1, .add, r2.1⟩, r1.1 + r2.1), r2.2)
  | .borrowing =>
      let r1 := randInt 10 (min max_val 99) g
      let ones_digit := r1.1 % 10
      let r2 := randInt (ones_digit + 1) (min r1.1 9 + 10) r1.2
      if r1.1 < r2.1 ∧ !allow_negative then
        (some (⟨r2.1, .sub, r1.1⟩, r2.1 - r1.1), r2.2)
      else (some (⟨r1.1, .sub, r2.1⟩, r1.1 - r2.1), r2.2)
  | .multiplication_tables =>
      let r1 := randInt 2 (min max_val 12) g
      let r2 := randInt 2 (min max_val 12) r1.2
      (some (⟨r1.1, .mul, r2.1⟩, r1.1 * r2.1), r2.2)
  | .large_numbers =>
      let scale := min (max_val / 10) 100
      if scale < 10 then (none, g)
      else
        let r1 := randInt scale (min max_val (scale * 10)) g
        let r2 := randInt 1 (min max_val 20) r1.2
        let rop := randChoice [Op.add, Op.sub, Op.mul] Op.add r2.2
        match rop.1 with
        | .add => (some (⟨r1.1, .add, r2.1⟩, r1.1 + r2.1), rop.2)
        | .sub =>
            if r1.1 < r2.1 ∧ !allow_negative then
              (some (⟨r2.1, .sub, r1.1⟩, r2.1 - r1.1), rop.2)
            else (some (⟨r1.1, .sub, r2.1⟩, r1.1 - r2.1), rop.2)
        | _ =>
            let n1 := if max_val < r1.1 * r2.1 then max_val / r2.1 else r1.1
            (some (⟨n1, .mul, r2.1⟩, n1 * r2.1), rop.2)
  | .zero_handling =>
      let rop := randChoice [Op.add, Op.sub, Op.mul] Op.add g
      let ru := randFloat rop.2
      let nums :=
        if ru.1 < 1/2 then
          let r2 := randInt 1 max_val ru.2
          ((0 : Int), r2.1, r2.2)
        else
          let r1 := randInt 1 max_val ru.2
          (r1.1, (0 : Int), r1.2)
      let num1 := nums.1
      let num2 := nums.2.1
      let g2 := nums.2.2
      match rop.1 with
      | .add => (some (⟨num1, .add, num2⟩, num1 + num2), g2)
      | .sub =>
          if num1 < num2 ∧ !allow_negative then
            (some (⟨num2, .sub, num1⟩, num2 - num1), g2)
          else (some (⟨num1, .sub, num2⟩, num1 - num2), g2)
      | _ => (some (⟨num1, .mul, num2⟩, num1 * num2), g2)
  | .division_remainder =>
      let rd := randInt 2 (min max_val 12) g
      let rq := randInt 1 (max_val / rd.1) rd.2
      (some (⟨rd.1 * rq.1, .div, rd.1⟩, rq.1), rq.2)

/-- A candidate of `smart_generate_problem`: problem, answer, score. -/
abbrev Cand := Problem × Int × Rat

/-- Score given to a targeted candidate: `evaluate_problem_difficulty` on a
normalized typing time computed from `str(answer)`, boosted by 1.5, then
adjusted by `adjust_problem_score`. -/
def targeted_candidate_score (pd : List Entry) (now : Rat) (difficulty : Nat)
    (p : Problem) (answer : Int) : Rat :=
  let typing_time := estimate_typing_time (digitLen answer)
  let ntt := min 1 (typing_time / 5)
  let score := evaluate_problem_difficulty pd now p.num1 p.op p.num2 ntt * (3/2)
  adjust_problem_score pd p.num1 p.op p.num2 score difficulty

/-- Score given to a regular candidate.  The typing-time string is
`str(eval(problem))`: for division Python evaluates to a float whose text
carries a trailing `".0"` (two extra characters) since the engine's
divisions are exact; for the other operators it is the integer text. -/
def regular_candidate_score (pd : List Entry) (now : Rat) (difficulty : Nat)
    (p : Problem) : Rat :=
  let len := match p.op with
    | .div => digitLen (p.num1 / p.num2) + 2
    | _ => digitLen (p.op.apply p.num1 p.num2)
  let ntt := min 1 (estimate_typing_time len / 5)
  let score := evaluate_problem_difficulty pd now p.num1 p.op p.num2 ntt
  adjust_problem_score pd p.num1 p.op p.num2 score difficulty

/-- The pattern-targeted candidate loop of `smart_generate_problem`
(`for _ in range(max_candidates)`): collects scored non-trivial targeted
candidates, stopping early when targeted generation returns `None`. -/
def targetedLoop (pd : List Entry) (now : Rat) (difficulties : Op → Nat) (difficulty : Nat)
    (pat : Pattern) (amv : Int) (allow_negative : Bool) : Nat → Rng → List Cand × Rng
  | 0, g => ([], g)
  | n + 1, g =>
      match generate_targeted_problem pat amv allow_negative g with
      | (none, g2) => ([], g2)
      | (some pa, g2) =>
          if is_trivial_problem difficulties pa.1.num1 pa.1.op pa.1.num2 then
            targetedLoop pd now difficulties difficulty pat amv allow_negative n g2
          else
            let score := targeted_candidate_score pd now difficulty pa.1 pa.2
            let rest := targetedLoop pd now difficulties difficulty pat amv allow_negative n g2
            ((pa.1, pa.2, score) :: rest.1, rest.2)

/-- The `educational_focus` block of the addition arm: the "make 10 / make
100" override of the two drawn operands. -/
def add_edu_nums (amv num1 num2 : Int) (g : Rng) : Int × Int × Rng :=
  let ru := randFloat g
  if ru.1 < 3/10 ∧ 10 ≤ amv then
    let rv := randFloat ru.2
    let target : Int := if rv.1 < 1/2 ∧ 100 ≤ amv then 100 else 10
    if target ≤ amv then
      let rn := randInt 1 (min (target - 1) amv) rv.2
      (rn.1, target - rn.1, rn.2)
    else (num1, num2, rv.2)
  else (num1, num2, ru.2)

/-- Variation 1 of the addition arm (round-number targets, taken only when
`difficulty > 1`); `none` models its `continue` on a trivial result. -/
def add_variation (ds : Op → Nat) (d : Nat) (amv num1 num2 answer : Int) (g : Rng) :
    Option (Int × Int × Int) × Rng :=
  let ru := randFloat g
  if ru.1 < 3/20 ∧ 1 < d then
    let suitable := ([10, 20, 50, 100, 200, 500, 1000] : List Int).filter
      fun t => decide (t ≤ amv * 2)
    if suitable.isEmpty then (some (num1, num2, answer), ru.2)
    else
      let rt := randChoice suitable 10 ru.2
      let rn := randInt 1 (rt.1 - 1) rt.2
      let n2 := rt.1 - rn.1
      if is_trivial_problem ds rn.1 .add n2 then (none, rn.2)
      else (some (rn.1, n2, rt.1), rn.2)
  else (some (num1, num2, answer), ru.2)

/-- The `operation == 'addition'` arm of the regular candidate loop.
Returns `none` for a `continue` (trivial candidate).  Draw order follows the
source, including Python's short-circuit evaluation. -/
def smart_add_candidate (difficulties : Op → Nat) (difficulty : Nat) (amv : Int)
    (educational_focus : Bool) (g : Rng) : Option (Problem × Int) × Rng :=
  let r1 := randInt 1 amv g
  let r2 := randInt 1 amv r1.2
  if is_trivial_problem difficulties r1.1 .add r2.1 then (none, r2.2)
  else
    let step1 := if educational_focus then add_edu_nums amv r1.1 r2.1 r2.2
      else (r1.1, r2.1, r2.2)
    let step2 := if !educational_focus then
        add_variation difficulties difficulty amv step1.1 step1.2.1
          (step1.1 + step1.2.1) step1.2.2
      else (some (step1.1, step1.2.1, step1.1 + step1.2.1), step1.2.2)
    match step2 with
    | (none, g2) => (none, g2)
    | (some nna, g2) =>
        let rs := randFloat g2
        if rs.1 < 1/2 then (some (⟨nna.2.1, .add, nna.1⟩, nna.2.2), rs.2)
        else (some (⟨nna.1, .add, nna.2.1⟩, nna.2.2), rs.2)

/-- The `num2` draw shared by the subtraction arm:
`randint(1, num1) if not allow_negative else randint(1, adjusted_max_val)`. -/
def sub_draw_num2 (allow_negative : Bool) (amv num1 : Int) (g : Rng) : Int × Rng :=
  if !allow_negative then randInt 1 num1 g else randInt 1 amv g

/-- The `educational_focus` block of the subtraction arm: possibly replace
`num1` by a round base.  Its `num2` draw is consumed but its value is
discarded by the source (the variation `else` overwrites `num2`). -/
def sub_edu_num1 (allow_negative : Bool) (amv num1 : Int) (g : Rng) : Int × Rng :=
  let ru := randFloat g
  if ru.1 < 2/5 then
    let base_options := (if 10 ≤ amv then [(10 : Int)] else []) ++
      (if 20 ≤ amv then [20] else []) ++ (if 100 ≤ amv then [100] else [])
    if base_options.isEmpty then (num1, ru.2)
    else
      let rb := randChoice base_options 10 ru.2
      let rdrop := if !allow_negative then randInt 1 rb.1 rb.2
        else randInt 1 (min (rb.1 + 10) amv) rb.2
      (rb.1, rdrop.2)
  else (num1, ru.2)

/-- Variation 1 of the subtraction arm (round-number `num1`, taken only
when `difficulty > 1`), falling back to the shared `num2` draw. -/
def sub_variation (d : Nat) (amv num1 : Int) (allow_negative : Bool) (g : Rng) :
    Int × Int × Rng :=
  let ru := randFloat g
  if ru.1 < 3/20 ∧ 1 < d then
    let suitable := ([10, 20, 50, 100, 200, 500, 1000] : List Int).filter
      fun t => decide (t ≤ amv)
    if suitable.isEmpty then
      let rn := sub_draw_num2 allow_negative amv num1 ru.2
      (num1, rn.1, rn.2)
    else
      let rt := randChoice suitable 10 ru.2
      let rn := randInt 1 rt.1 rt.2
      (rt.1, rn.1, rn.2)
  else
    let rn := sub_draw_num2 allow_negative amv num1 ru.2
    (num1, rn.1, rn.2)

/-- The `operation == 'subtraction'` arm of the regular candidate loop. -/
def smart_sub_candidate (difficulties : Op → Nat) (difficulty : Nat) (amv : Int)
    (allow_negative educational_focus : Bool) (g : Rng) : Option (Problem × Int) × Rng :=
  let r1 := randInt 1 amv g
  let step1 := if educational_focus then sub_edu_num1 allow_negative amv r1.1 r1.2
    else (r1.1, r1.2)
  let step2 := if !educational_focus then
      sub_variation difficulty amv step1.1 allow_negative step1.2
    else
      let rn := sub_draw_num2 allow_negative amv step1.1 step1.2
      (step1.1, rn.1, rn.2)
  if is_trivial_problem difficulties step2.1 .sub step2.2.1 then (none, step2.2.2)
  else (some (⟨step2.1, .sub, step2.2.1⟩, step2.1 - step2.2.1), step2.2.2)

/-- The `educational_focus` operand selection of the multiplication arm:
tables, multiples of 9, or doubling.  In the doubling branch the source
calls `random.randint(2, adjusted_max_val // multiplier)` without a
lower-bound guard; for `multiplier = 8` and `adjusted_max_val < 16` that
range is empty and CPython raises — the model returns the lower bound 2
there. -/
def mul_edu_nums (amv : Int) (g : Rng) : Int × Int × Rng :=
  let ru := randFloat g
  if ru.1 < 3/5 then
    let r1 := randInt 2 (min 12 amv) ru.2
    let r2 := randInt 2 (min 12 amv) r1.2
    (r1.1, r2.1, r2.2)
  else
    let rv := randFloat ru.2
    if rv.1 < 1/2 then
      if 9 ≤ amv then
        let max_factor := amv / 9
        if 2 ≤ max_factor then
          let r2 := randInt 2 (min max_factor 12) rv.2
          (9, r2.1, r2.2)
        else (9, 2, rv.2)
      else
        let r1 := randInt 2 (min amv 12) rv.2
        let r2 := randInt 2 (min amv 12) r1.2
        (r1.1, r2.1, r2.2)
    else
      let rm := randChoice ([2, 4, 8] : List Int) 2 rv.2
      if rm.1 ≤ amv then
        let max_factor := amv / rm.1
        let r1 := randInt 2 max_factor rm.2
        (r1.1, rm.1, r1.2)
      else
        let r1 := randInt 2 (min amv 12) rm.2
        let r2 := randInt 2 (min amv 12) r1.2
        (r1.1, r2.1, r2.2)

/-- The standard operand selection of the multiplication arm: small
numbers, powers of ten (only when `difficulty > 1`), or basic capped
multiplication. -/
def mul_std_nums (d : Nat) (amv : Int) (g : Rng) : Int × Int × Rng :=
  let ru := randFloat g
  if ru.1 < 1/5 then
    let r1 := randInt 2 (min 12 amv) ru.2
    let r2 := randInt 2 (min 12 amv) r1.2
    (r1.1, r2.1, r2.2)
  else
    let rv := randFloat ru.2
    if rv.1 < 3/20 ∧ 1 < d then
      let pm := (if 10 ≤ amv then [(10 : Int)] else []) ++
        (if 100 ≤ amv then [100] else []) ++ (if 1000 ≤ amv then [1000] else [])
      if pm.isEmpty then
        let r1 := randInt 2 amv rv.2
        let max_divisor := amv / max 1 r1.1
        if 2 ≤ max_divisor then
          let r2 := randInt 2 max_divisor r1.2
          (r1.1, r2.1, r2.2)
        else (r1.1, 2, r1.2)
      else
        let rc := randChoice pm 10 rv.2
        let max_num1 := amv / rc.1
        if 2 ≤ max_num1 then
          let r1 := randInt 2 max_num1 rc.2
          (r1.1, rc.1, r1.2)
        else
          let r1 := randInt 2 amv rc.2
          let max_divisor := amv / max 1 r1.1
          if 2 ≤ max_divisor then
            let r2 := randInt 2 max_divisor r1.2
            (r1.1, r2.1, r2.2)
          else (r1.1, 2, r1.2)
    else
      let r1 := randInt 2 amv rv.2
      let max_num2 := amv / max 1 r1.1
      if 2 ≤ max_num2 then
        let r2 := randInt 2 max_num2 r1.2
        (r1.1, r2.1, r2.2)
      else (r1.1, 2, r1.2)

/-- The `operation == 'multiplication'` arm of the regular candidate loop. -/
def smart_mul_candidate (difficulties : Op → Nat) (difficulty : Nat) (amv : Int)
    (educational_focus : Bool) (g : Rng) : Option (Problem × Int) × Rng :=
  let step := if educational_focus then mul_edu_nums amv g else mul_std_nums difficulty amv g
  if is_trivial_problem difficulties step.1 .mul step.2.1 then (none, step.2.2)
  else
    let answer := step.1 * step.2.1
    let rs := randFloat step.2.2
    if rs.1 < 1/2 then (some (⟨step.2.1, .mul, step.1⟩, answer), rs.2)
    else (some (⟨step.1, .mul, step.2.1⟩, answer), rs.2)

/-- The `educational_focus` divisor/quotient selection of the division arm.
The result triple is `(num2, answer, rng)`. -/
def div_edu_nums (amv : Int) (g : Rng) : Int × Int × Rng :=
  let ru := randFloat g
  if ru.1 < 2/5 then
    let r2 := randInt 2 (min 9 amv) ru.2
    let max_quotient := amv / r2.1
    if 2 ≤ max_quotient then
      let ra := randInt 2 max_quotient r2.2
      (r2.1, ra.1, ra.2)
    else (r2.1, 2, r2.2)
  else
    let rv := randFloat ru.2
    if rv.1 < 3/10 then
      if 2 ≤ amv then
        let max_quotient := amv / 2
        let ra := randInt 2 max_quotient rv.2
        (2, ra.1, ra.2)
      else
        let r2 := randInt 2 amv rv.2
        (r2.1, 2, r2.2)
    else
      let divisor_options := (if 5 ≤ amv then [(5 : Int)] else []) ++
        (if 10 ≤ amv then [10] else []) ++ (if 25 ≤ amv then [25] else [])
      if divisor_options.isEmpty then
        let r2 := randInt 2 amv rv.2
        (r2.1, 2, r2.2)
      else
        let rc := randChoice divisor_options 5 rv.2
        let max_quotient := amv / rc.1
        if 2 ≤ max_quotient then
          let ra := randInt 2 max_quotient rc.2
          (rc.1, ra.1, ra.2)
        else (rc.1, 2, rc.2)

/-- The standard divisor/quotient selection of the division arm (the
power-of-ten variation requires `difficulty > 2`).  The result triple is
`(num2, answer, rng)`. -/
def div_std_nums (d : Nat) (amv : Int) (g : Rng) : Int × Int × Rng :=
  let ru := randFloat g
  if ru.1 < 3/10 then
    let r2 := randInt 2 (min 12 amv) ru.2
    let max_answer := amv / r2.1
    if 2 ≤ max_answer then
      let ra := randInt 2 max_answer r2.2
      (r2.1, ra.1, ra.2)
    else (r2.1, 2, r2.2)
  else
    let rv := randFloat ru.2
    if rv.1 < 3/20 ∧ 2 < d then
      let pdiv := (if 10 ≤ amv then [(10 : Int)] else []) ++
        (if 100 ≤ amv then [100] else [])
      if pdiv.isEmpty then
        let r2 := randInt 2 amv rv.2
        (r2.1, 2, r2.2)
      else
        let rc := randChoice pdiv 10 rv.2
        let max_answer := amv / rc.1
        if 2 ≤ max_answer then
          let ra := randInt 2 max_answer rc.2
          (rc.1, ra.1, ra.2)
        else (rc.1, 2, rc.2)
    else
      let r2 := randInt 2 amv rv.2
      let max_answer := amv / max 1 r2.1
      if 2 ≤ max_answer then
        let ra := randInt 2 max_answer r2.2
        (r2.1, ra.1, ra.2)
      else (r2.1, 2, r2.2)

/-- The `operation == 'division'` arm of the regular candidate loop;
`num1 = num2 * answer` guarantees exactness. -/
def smart_div_candidate (difficulties : Op → Nat) (difficulty : Nat) (amv : Int)
    (educational_focus : Bool) (g : Rng) : Option (Problem × Int) × Rng :=
  let step := if educational_focus then div_edu_nums amv g else div_std_nums difficulty amv g
  let num2 := step.1
  let answer := step.2.1
  let num1 := num2 * answer
  if is_trivial_problem difficulties num1 .div num2 then (none, step.2.2)
  else (some (⟨num1, .div, num2⟩, answer), step.2.2)

/-- Dispatch of the regular candidate loop body on the operation. -/
def smart_branch (difficulties : Op → Nat) (operation : Op) (difficulty : Nat) (amv : Int)
    (allow_negative educational_focus : Bool) (g : Rng) : Option (Problem × Int) × Rng :=
  match operation with
  | .add => smart_add_candidate difficulties difficulty amv educational_focus g
  | .sub => smart_sub_candidate difficulties difficulty amv allow_negative educational_focus g
  | .mul => smart_mul_candidate difficulties difficulty amv educational_focus g
  | .div => smart_div_candidate difficulties difficulty amv educational_focus g

/-- The `while len(candidates) < max_candidates and attempts < 50` loop of
`smart_generate_problem`: the fuel argument is `50 - attempts`. -/
def regularLoop (pd : List Entry) (now : Rat) (difficulties : Op → Nat) (operation : Op)
    (difficulty : Nat) (amv : Int) (allow_negative educational_focus : Bool) :
    Nat → List Cand → Rng → List Cand × Rng
  | 0, cands, g => (cands, g)
  | fuel + 1, cands, g =>
      if 25 ≤ cands.length then (cands, g)
      else
        match smart_branch difficulties operation difficulty amv allow_negative
            educational_focus g with
        | (none, g2) =>
            regularLoop pd now difficulties operation difficulty amv allow_negative
              educational_focus fuel cands g2
        | (some pa, g2) =>
            let score := regular_candidate_score pd now difficulty pa.1
            regularLoop pd now difficulties operation difficulty amv allow_negative
              educational_focus fuel (cands ++ [(pa.1, pa.2, score)]) g2

/-- The final candidate selection of `smart_generate_problem`: fall back to
the plain generator when fewer than 5 candidates survived, otherwise a
weighted draw over the candidates (`random.choices(range(n), weights)`),
modelled by one raw draw picking index `x % n`; with total score 0,
`candidates[0]`. -/
def select_candidate (operation : Op) (difficulty : Nat) (allow_negative : Bool)
    (candidates : List Cand) (g : Rng) : (Problem × Int) × Rng :=
  if candidates.length < 5 then generate_problem operation difficulty allow_negative g
  else
    let total := (candidates.map fun c => c.2.2).sum
    if 0 < total then
      let rx := g.next
      let c := candidates.getD (rx.1 % candidates.length) (⟨0, .add, 0⟩, 0, 0)
      ((c.1, c.2.1), rx.2)
    else
      let c := candidates.getD 0 (⟨0, .add, 0⟩, 0, 0)
      ((c.1, c.2.1), g)

/-- Embedding of `smart_generate_problem(operation, difficulty,
allow_negative)` over the history `pd`, the per-operation difficulty table
(read by the triviality filter) and the current time.  Candidate selection
`random.choices(range(n), weights, k=1)` is modelled by one raw draw picking
index `x % n`; every index the model can pick has positive weight at the
reachable states used in the theorems below. -/
def smart_finish (pd : List Entry) (difficulties : Op → Nat) (now : Rat)
    (operation : Op) (difficulty : Nat) (allow_negative : Bool)
    (targeted : List Cand × Rng) : (Problem × Int) × Rng :=
  let re := randFloat targeted.2
  let educational_focus := decide (re.1 < 1/4)
  let loop := regularLoop pd now difficulties operation difficulty
    (smart_adjusted_max_val difficulty) allow_negative educational_focus 50 targeted.1 re.2
  select_candidate operation difficulty allow_negative loop.1 loop.2

def smart_generate_problem (pd : List Entry) (difficulties : Op → Nat) (now : Rat)
    (operation : Op) (difficulty : Nat) (allow_negative : Bool) (g : Rng) :
    (Problem × Int) × Rng :=
  let amv := smart_adjusted_max_val difficulty
  let pattern := check_error_patterns pd
  let targeted : List Cand × Rng :=
    match pattern with
    | some pat =>
        let ru := randFloat g
        if ru.1 < 7/10 then
          targetedLoop pd now difficulties difficulty pat amv allow_negative 25 ru.2
        else ([], ru.2)
    | none => ([], g)
  smart_finish pd difficulties now operation difficulty allow_negative targeted

/-! ### Helper lemmas about the randomness model -/

theorem randInt_fst (a b : Int) (g : Rng) :
    (randInt a b g).1 = if a ≤ b then a + ((g.next.1 : Nat) : Int) % (b - a + 1) else a := rfl

theorem le_randInt_fst (a b : Int) (g : Rng) : a ≤ (randInt a b g).1 := by
  rw [randInt_fst]
  split
  · rename_i h
    have hne : b - a + 1 ≠ 0 := by omega
    have := Int.emod_nonneg ((g.next.1 : Nat) : Int) hne
    omega
  · exact le_refl a

theorem randInt_fst_le (a b : Int) (g : Rng) (h : a ≤ b) : (randInt a b g).1 ≤ b := by
  rw [randInt_fst, if_pos h]
  have hpos : (0 : Int) < b - a + 1 := by omega
  have := Int.emod_lt_of_pos ((g.next.1 : Nat) : Int) hpos
  omega

theorem getD_mem_of_lt {α : Type} (l : List α) (n : Nat) (d : α) (h : n < l.length) :
    l.getD n d ∈ l := by
  rw [List.getD_eq_getElem?_getD, List.getElem?_eq_getElem h]
  exact List.getElem_mem h

theorem randChoice_fst_mem {α : Type} (l : List α) (dflt : α) (g : Rng) (h : l ≠ []) :
    (randChoice l dflt g).1 ∈ l := by
  have hl : 0 < l.length := List.length_pos.mpr h
  exact getD_mem_of_lt l _ dflt (Nat.mod_lt _ hl)

theorem adjusted_max_val_ge_five (d : Nat) : 5 ≤ adjusted_max_val d := by
  have h1 : (1 : Rat) ≤ (11/10) ^ (d - 1) := one_le_pow₀ (by norm_num)
  have h5 : (5 : Rat) ≤ 5 * (11/10) ^ (d - 1) := by nlinarith
  exact Int.le_floor.mpr (by exact_mod_cast h5)

/-! ### C9: the difficulty-range formula -/

/-- Modelled from the spec: `maxVal = round(5 × 1.1^(difficultyLevel-1))`,
rounding to the nearest integer (written here as `⌊x + 1/2⌋`; Python's
banker's rounding agrees with this at the point of comparison below, where
the fractional part is 1/2 and the upper neighbour 6 is the even one). -/
def spec_round_max_val (difficulty : Nat) : Int :=
  ⌊(5 : Rat) * (11/10) ^ (difficulty - 1) + 1/2⌋

/-- C9 counterexample: at difficulty 2 the code computes
`int(5 * 1.1 ** 1) = int(5.5) = 5`, while the spec's rounding formula gives
`round(5.5) = 6`, so the generators do not use the rounded value. -/
theorem C9_counterexample :
    adjusted_max_val 2 = 5 ∧ spec_round_max_val 2 = 6 ∧
    adjusted_max_val 2 ≠ spec_round_max_val 2 := by
  refine ⟨by decide, by decide, by decide⟩

/-- C9 amended: for every difficulty ≥ 1 both generators use
`maxVal = int(5 × 1.1^(difficulty-1))`, the value truncated (floored) rather
than rounded — characterised by `maxVal ≤ 5 × 1.1^(d-1) < maxVal + 1` — and
the smart path uses exactly this value floored at 10.  The plain generator
bounds its addition operands by this value directly. -/
theorem C9_amended_truncated_max_val : ∀ d : Nat, 1 ≤ d →
    ((adjusted_max_val d : Rat) ≤ 5 * (11/10) ^ (d - 1) ∧
      (5 : Rat) * (11/10) ^ (d - 1) - 1 < (adjusted_max_val d : Rat)) ∧
    smart_adjusted_max_val d = max (adjusted_max_val d) 10 ∧
    (∀ an g, 1 ≤ (generate_problem .add d an g).1.1.num1 ∧
      (generate_problem .add d an g).1.1.num1 ≤ adjusted_max_val d ∧
      1 ≤ (generate_problem .add d an g).1.1.num2 ∧
      (generate_problem .add d an g).1.1.num2 ≤ adjusted_max_val d) := by
  intro d _
  refine ⟨⟨Int.floor_le _, Int.sub_one_lt_floor _⟩, rfl, ?_⟩
  intro an g
  have h1 : (1 : Int) ≤ adjusted_max_val d := le_trans (by norm_num) (adjusted_max_val_ge_five d)
  exact ⟨le_randInt_fst _ _ _, randInt_fst_le _ _ _ h1,
    le_randInt_fst _ _ _, randInt_fst_le _ _ _ h1⟩

/-- C9 witness: the amended statement instantiated at difficulty 2 with a
concrete draw stream. -/
theorem C9_witness :
    ((adjusted_max_val 2 : Rat) ≤ 5 * (11/10) ^ (2 - 1 : Nat) ∧
      (5 : Rat) * (11/10) ^ (2 - 1 : Nat) - 1 < (adjusted_max_val 2 : Rat)) ∧
    smart_adjusted_max_val 2 = max (adjusted_max_val 2) 10 ∧
    (∀ an g, 1 ≤ (generate_problem .add 2 an g).1.1.num1 ∧
      (generate_problem .add 2 an g).1.1.num1 ≤ adjusted_max_val 2 ∧
      1 ≤ (generate_problem .add 2 an g).1.1.num2 ∧
      (generate_problem .add 2 an g).1.1.num2 ≤ adjusted_max_val 2) :=
  C9_amended_truncated_max_val 2 (by decide)

/-! ### C6: loading of persisted files -/

/-- C6 counterexample: a malformed persisted file is not substituted with
the default — `json.load` raises and the loaders propagate the exception,
so loading fails rather than returning the default configuration. -/
theorem C6_counterexample :
    load_config .malformed = .error () ∧
    load_performance_data .malformed = .error () ∧
    load_config .malformed ≠ .ok default_config := by
  refine ⟨rfl, rfl, ?_⟩
  intro h
  exact Except.noConfusion h

/-- C6 amended: only a missing file is substituted — `load_config` returns
the documented default (all operations enabled, all difficulties 1,
negatives allowed) and `load_performance_data` the empty history; a present
well-formed file is returned as parsed; malformed content raises. -/
theorem C6_amended_load_defaults :
    load_config .missing = .ok default_config ∧
    load_performance_data .missing = .ok [] ∧
    default_config.operations = (fun _ => true) ∧
    default_config.difficulties = (fun _ => 1) ∧
    default_config.allow_negative = true ∧
    (∀ c, load_config (.wellFormed c) = .ok c) ∧
    (∀ l, load_performance_data (.wellFormed l) = .ok l) ∧
    load_config .malformed = .error () ∧
    load_performance_data .malformed = .error () :=
  ⟨rfl, rfl, rfl, rfl, rfl, fun _ => rfl, fun _ => rfl, rfl, rfl⟩

/-! ### C7: operation weights -/

/-- C7: an operator with no history entries gets weight 1 (the caller's
`problem_weights.get(op, 1)` default), and an operator with at least one
entry gets its clamped weight in `[1, 5]`. -/
theorem C7_weight_bounds : ∀ pd now o,
    (opEntries pd o = [] → problem_weight_with_default pd now o = 1) ∧
    (opEntries pd o ≠ [] → 1 ≤ problem_weight_with_default pd now o ∧
      problem_weight_with_default pd now o ≤ 5) := by
  intro pd now o
  constructor
  · intro h
    simp [problem_weight_with_default, get_problem_weights, h]
  · intro h
    have hlen : ¬((opEntries pd o).length = 0) := by
      simpa [List.length_eq_zero] using h
    simp only [problem_weight_with_default, get_problem_weights, if_neg hlen, Option.getD_some]
    exact ⟨le_max_left _ _, max_le (by norm_num) (le_trans (min_le_right _ _) (le_refl 5))⟩

/-- C7 witness: instantiation at the empty history and at a one-entry
history. -/
theorem C7_witness :
    problem_weight_with_default [] 0 .add = 1 ∧
    (1 ≤ problem_weight_with_default [⟨3, .add, 4, true, 1, 1, 0⟩] 0 .add ∧
      problem_weight_with_default [⟨3, .add, 4, true, 1, 1, 0⟩] 0 .add ≤ 5) :=
  ⟨(C7_weight_bounds [] 0 .add).1 rfl,
   (C7_weight_bounds [⟨3, .add, 4, true, 1, 1, 0⟩] 0 .add).2 (by decide)⟩

/-! ### C3: carrying and borrowing tallies -/

/-- A history whose three recent errors are the addition `7 + 8`: carrying
is arithmetically required (`7 + 8 ≥ 10` in the ones digits), but the code
only tallies carrying when an operand is ≥ 10. -/
def c3_history : List Entry :=
  List.replicate 7 ⟨6, .add, 7, true, 1, 1, 0⟩ ++
  List.replicate 3 ⟨7, .add, 8, false, 1, 1, 0⟩

/-- C3 counterexample: the incorrect addition record `7 + 8` satisfies
`(num1 mod 10) + (num2 mod 10) ≥ 10` yet is not tallied under carrying, and
the incorrect subtraction record `5 - 7` satisfies
`num1 mod 10 < num2 mod 10` yet is not tallied under borrowing; with ten
records of which the three errors are all `7 + 8`, no pattern is detected at
all. -/
theorem C3_counterexample :
    (10 ≤ (7 : Int) % 10 + (8 : Int) % 10 ∧
      tally ⟨7, .add, 8, false, 1, 1, 0⟩ .carrying = false) ∧
    ((5 : Int) % 10 < (7 : Int) % 10 ∧
      tally ⟨5, .sub, 7, false, 1, 1, 0⟩ .borrowing = false) ∧
    patternCount c3_history .carrying = 0 ∧
    check_error_patterns c3_history = none := by
  decide

/-- C3 amended: an incorrect addition record is tallied under carrying
exactly when additionally `num1 ≥ 10` or `num2 ≥ 10`, and an incorrect
subtraction record under borrowing exactly when additionally `num1 ≥ 10`;
the per-pattern counts of `check_error_patterns` range over exactly these
conditions. -/
theorem C3_amended_tally_conditions : ∀ pd e,
    (tally e .carrying = true ↔
      (e.op = .add ∧ (10 ≤ e.num1 ∨ 10 ≤ e.num2) ∧ 10 ≤ e.num1 % 10 + e.num2 % 10)) ∧
    (tally e .borrowing = true ↔
      (e.op = .sub ∧ 10 ≤ e.num1 ∧ e.num1 % 10 < e.num2 % 10)) ∧
    patternCount pd .carrying = ((recent_errors pd).filter fun e2 =>
      decide (e2.op = .add ∧ (10 ≤ e2.num1 ∨ 10 ≤ e2.num2) ∧
        10 ≤ e2.num1 % 10 + e2.num2 % 10)).length ∧
    patternCount pd .borrowing = ((recent_errors pd).filter fun e2 =>
      decide (e2.op = .sub ∧ 10 ≤ e2.num1 ∧ e2.num1 % 10 < e2.num2 % 10)).length := by
  intro pd e
  exact ⟨by simp [tally], by simp [tally], rfl, rfl⟩

/-! ### C4: the difficulty-increase rule -/

/-- Modelled from the spec: `recentAccuracy = correctCount / 20` — the
spec's fixed denominator of 20, for comparison with the code's division by
the actual window length. -/
def spec_recent_accuracy (w : List Entry) : Rat :=
  ((w.filter fun e => e.correct).length : Rat) / 20

/-- Four earlier correct addition attempts, each taking 10 seconds. -/
def c4_history : List Entry :=
  [⟨3, .add, 4, true, 10, 1, 1⟩, ⟨3, .add, 4, true, 10, 1, 2⟩,
   ⟨3, .add, 4, true, 10, 1, 3⟩, ⟨3, .add, 4, true, 10, 1, 4⟩]

/-- C4 counterexample: with only 5 addition records (all correct, the new
one fast), the code divides by the window length 5, gets accuracy 1 > 0.75
with z ≤ -0.5 and increments the difficulty from 1 to 2 — while the claim's
`correctCount/20 = 1/4` predicts no increment. -/
theorem C4_counterexample :
    (log_attempt c4_history (fun _ => 1) ⟨3, .add, 4⟩ true 2 1 100).2 Op.add = 2 ∧
    ¬(3/4 < spec_recent_accuracy (recent_window
      (c4_history ++ [⟨3, .add, 4, true, 2, 1, 100⟩]) Op.add)) := by
  decide

/-- C4 amended: `log_attempt` increments the operator's difficulty by
exactly 1 precisely when the accuracy over the most recent (up to) 20
records of that operator — divided by the number of records actually in the
window, not by a fixed 20 — exceeds 0.75 and the z-score of the recorded
time against the window's times is at most -0.5 (taken as 0 when the window
has fewer than 2 samples or zero deviation). -/
theorem C4_amended_difficulty_increment :
    ∀ pd difficulties prob correct t d now, 1 ≤ difficulties prob.op →
    (((log_attempt pd difficulties prob correct t d now).2 prob.op = difficulties prob.op + 1) ↔
      (3/4 < recent_accuracy (recent_window (pd ++
          [⟨prob.num1, prob.op, prob.num2, correct, t, d, now⟩]) prob.op) ∧
        zLeNegHalf ((recent_window (pd ++
          [⟨prob.num1, prob.op, prob.num2, correct, t, d, now⟩]) prob.op).map
            fun e => e.time_taken) t = true)) := by
  intro pd diffs prob c t d now h1
  have heq : (log_attempt pd diffs prob c t d now).2 prob.op =
      (if 3/4 < recent_accuracy (recent_window (pd ++
            [⟨prob.num1, prob.op, prob.num2, c, t, d, now⟩]) prob.op) ∧
          zLeNegHalf ((recent_window (pd ++
            [⟨prob.num1, prob.op, prob.num2, c, t, d, now⟩]) prob.op).map
              fun e => e.time_taken) t then diffs prob.op + 1
        else if recent_accuracy (recent_window (pd ++
            [⟨prob.num1, prob.op, prob.num2, c, t, d, now⟩]) prob.op) < 3/5 ∨
          zGeHalf ((recent_window (pd ++
            [⟨prob.num1, prob.op, prob.num2, c, t, d, now⟩]) prob.op).map
              fun e => e.time_taken) t then max 1 (diffs prob.op - 1)
        else diffs prob.op) := by
    show (if prob.op = prob.op then _ else _) = _
    rw [if_pos rfl]
  rw [heq]
  split_ifs with hA hB
  · exact iff_of_true rfl ⟨hA.1, hA.2⟩
  · refine iff_of_false ?_ hA
    have hm : max 1 (diffs prob.op - 1) ≤ diffs prob.op := by omega
    omega
  · exact iff_of_false (by omega) hA

/-- C4 witness: the amended statement instantiated at the concrete history
of `C4_counterexample`, where the increment happens and both conditions
hold. -/
theorem C4_witness :
    ((log_attempt c4_history (fun _ => 1) ⟨3, .add, 4⟩ true 2 1 100).2 Op.add = (fun _ => 1) Op.add + 1) ↔
      (3/4 < recent_accuracy (recent_window (c4_history ++
          [⟨3, .add, 4, true, 2, 1, 100⟩]) Op.add) ∧
        zLeNegHalf ((recent_window (c4_history ++
          [⟨3, .add, 4, true, 2, 1, 100⟩]) Op.add).map fun e => e.time_taken) 2 = true) :=
  C4_amended_difficulty_increment c4_history (fun _ => 1) ⟨3, .add, 4⟩ true 2 1 100 (by decide)

/-! ### C5: the difficulty floor -/

/-- Twenty consecutive incorrect addition attempts logged through
`log_attempt`, starting from an empty history with all difficulties 1; the
logged difficulty of each attempt is the current table value, as in
`main_game`. -/
def attempt_sequence : Nat → List Entry × (Op → Nat) → List Entry × (Op → Nat)
  | 0, s => s
  | n + 1, s => attempt_sequence n (log_attempt s.1 s.2 ⟨3, .add, 4⟩ false 1 (s.2 Op.add) (n : Rat))

/-- C5: `log_attempt` never moves any operator's difficulty below 1, and
after 20 consecutive incorrect attempts starting at difficulty 1 the
difficulty is still exactly 1. -/
theorem C5_difficulty_floor :
    (∀ pd difficulties prob correct t d now o, 1 ≤ difficulties o →
      1 ≤ (log_attempt pd difficulties prob correct t d now).2 o) ∧
    (attempt_sequence 20 ([], fun _ => 1)).2 Op.add = 1 := by
  constructor
  · intro pd diffs prob c t d now o h
    by_cases ho : o = prob.op
    · have heq : (log_attempt pd diffs prob c t d now).2 o =
          (if 3/4 < recent_accuracy (recent_window (pd ++
                [⟨prob.num1, prob.op, prob.num2, c, t, d, now⟩]) prob.op) ∧
              zLeNegHalf ((recent_window (pd ++
                [⟨prob.num1, prob.op, prob.num2, c, t, d, now⟩]) prob.op).map
                  fun e => e.time_taken) t then diffs prob.op + 1
            else if recent_accuracy (recent_window (pd ++
                [⟨prob.num1, prob.op, prob.num2, c, t, d, now⟩]) prob.op) < 3/5 ∨
              zGeHalf ((recent_window (pd ++
                [⟨prob.num1, prob.op, prob.num2, c, t, d, now⟩]) prob.op).map
                  fun e => e.time_taken) t then max 1 (diffs prob.op - 1)
            else diffs prob.op) := by
        show (if o = prob.op then _ else _) = _
        rw [if_pos ho]
      rw [heq]
      rw [ho] at h
      split_ifs <;> omega
    · have heq : (log_attempt pd diffs prob c t d now).2 o = diffs o := by
        show (if o = prob.op then _ else _) = _
        rw [if_neg ho]
      rw [heq]
      exact h
  · decide

/-- C5 witness: the preservation statement instantiated at an empty history
with all difficulties 1. -/
theorem C5_witness :
    1 ≤ (log_attempt [] (fun _ => 1) ⟨3, .add, 4⟩ true 1 1 0).2 Op.add :=
  C5_difficulty_floor.1 [] (fun _ => 1) ⟨3, .add, 4⟩ true 1 1 0 Op.add (by decide)

/-! ### C8: scorer monotonicity -/

theorem one_le_exactWrongStage (ew : Nat) : 1 ≤ exactWrongStage ew := by
  unfold exactWrongStage
  split
  · have h0 : (0 : Rat) ≤ min ((ew : Rat) * (1/2)) 2 := le_min (by positivity) (by norm_num)
    linarith
  · exact le_refl 1

theorem exactWrongStage_mono {ew ew2 : Nat} (h : ew ≤ ew2) :
    exactWrongStage ew ≤ exactWrongStage ew2 := by
  unfold exactWrongStage
  split
  · rw [if_pos (by omega : 0 < ew2)]
    have : (ew : Rat) * (1/2) ≤ (ew2 : Rat) * (1/2) := by
      have : (ew : Rat) ≤ ew2 := by exact_mod_cast h
      linarith
    have := min_le_min this (le_refl (2 : Rat))
    linarith
  · split
    · have h0 : (0 : Rat) ≤ min ((ew2 : Rat) * (1/2)) 2 := le_min (by positivity) (by norm_num)
      linarith
    · exact le_refl 1

theorem exactCorrectStage_mono_left {s s2 : Rat} (ec : Nat) (h : s ≤ s2) :
    exactCorrectStage s ec ≤ exactCorrectStage s2 ec := by
  unfold exactCorrectStage
  split
  · exact max_le_max (le_refl _) (by linarith)
  · exact h

theorem exactCorrectStage_anti {ec ec2 : Nat} (s : Rat) (hs : 1/2 ≤ s) (h : ec ≤ ec2) :
    exactCorrectStage s ec2 ≤ exactCorrectStage s ec := by
  unfold exactCorrectStage
  by_cases h1 : 0 < ec
  · rw [if_pos h1, if_pos (by omega : 0 < ec2)]
    have hc : (ec : Rat) ≤ ec2 := by exact_mod_cast h
    exact max_le_max (le_refl _) (by linarith)
  · rw [if_neg h1]
    by_cases h2 : 0 < ec2
    · rw [if_pos h2]
      refine max_le hs ?_
      have h0 : (0 : Rat) ≤ (3/10) * (ec2 : Rat) := by positivity
      linarith
    · rw [if_neg h2]

theorem similarStage_mono_left {s s2 : Rat} (sw sc : Nat) (us : Bool) (h : s ≤ s2) :
    similarStage s sw sc us ≤ similarStage s2 sw sc us := by
  cases us with
  | false => exact h
  | true =>
    unfold similarStage
    rw [if_pos rfl, if_pos rfl]
    have h3 : (if 0 < sw then s + min ((sw : Rat) * (3/10)) 1 else s) ≤
        (if 0 < sw then s2 + min ((sw : Rat) * (3/10)) 1 else s2) := by
      split
      · linarith
      · exact h
    dsimp only
    split
    · exact max_le_max (le_refl _) (sub_le_sub_right h3 _)
    · exact h3

/-- C8 amended: the exact/similar-history part of the scorer (base score,
wrong-count bonus, correct-count penalty with their caps and floors) is
monotonically non-increasing in `exactCorrectCount` and non-decreasing in
`exactWrongCount`; the full `evaluate_problem_difficulty` is not, because
its spaced-repetition correct ratio also depends on these counts (see the
counterexample). -/
theorem C8_amended_history_factor_monotone :
    ∀ exact_wrong exact_wrong2 exact_correct exact_correct2 similar_wrong similar_correct
      useSimilar, exact_correct ≤ exact_correct2 → exact_wrong ≤ exact_wrong2 →
      historyFactorScore exact_wrong exact_correct2 similar_wrong similar_correct useSimilar ≤
        historyFactorScore exact_wrong exact_correct similar_wrong similar_correct useSimilar ∧
      historyFactorScore exact_wrong exact_correct similar_wrong similar_correct useSimilar ≤
        historyFactorScore exact_wrong2 exact_correct similar_wrong similar_correct useSimilar := by
  intro ew ew2 ec ec2 sw sc us hec hew
  constructor
  · refine similarStage_mono_left sw sc us ?_
    refine exactCorrectStage_anti _ ?_ hec
    have := one_le_exactWrongStage ew
    linarith
  · refine similarStage_mono_left sw sc us ?_
    exact exactCorrectStage_mono_left ec (exactWrongStage_mono hew)

/-- C8 witness: the amended monotonicity at the counts of the
counterexample histories (4 wrong, 9 vs 10 correct, no similar history). -/
theorem C8_witness :
    historyFactorScore 4 10 0 0 false ≤ historyFactorScore 4 9 0 0 false ∧
    historyFactorScore 4 9 0 0 false ≤ historyFactorScore 5 9 0 0 false :=
  C8_amended_history_factor_monotone 4 5 9 10 0 0 false (by decide) (by decide)

/-- Four incorrect attempts at `21 - 7`. -/
def c8_wrongs : List Entry :=
  [⟨21, .sub, 7, false, 1, 1, -4000⟩, ⟨21, .sub, 7, false, 1, 1, -3000⟩,
   ⟨21, .sub, 7, false, 1, 1, -2000⟩, ⟨21, .sub, 7, false, 1, 1, -1000⟩]

/-- Nine correct attempts at `21 - 7`, the latest at timestamp 0. -/
def c8_corrects : List Entry :=
  [⟨21, .sub, 7, true, 1, 1, -900⟩, ⟨21, .sub, 7, true, 1, 1, -800⟩,
   ⟨21, .sub, 7, true, 1, 1, -700⟩, ⟨21, .sub, 7, true, 1, 1, -600⟩,
   ⟨21, .sub, 7, true, 1, 1, -500⟩, ⟨21, .sub, 7, true, 1, 1, -400⟩,
   ⟨21, .sub, 7, true, 1, 1, -300⟩, ⟨21, .sub, 7, true, 1, 1, -200⟩,
   ⟨21, .sub, 7, true, 1, 1, 0⟩]

/-- Five unrelated recent records so the two histories share the same
last-five answers. -/
def c8_dummies : List Entry := List.replicate 5 ⟨100, .add, 1, true, 1, 1, 0⟩

/-- History A: 4 wrong and 9 correct attempts at `21 - 7`. -/
def c8_history_A : List Entry := c8_wrongs ++ c8_corrects ++ c8_dummies

/-- History B: history A with one more correct attempt at `21 - 7` (at an
older timestamp, so the most recent sighting is unchanged). -/
def c8_history_B : List Entry :=
  c8_wrongs ++ c8_corrects ++ [⟨21, .sub, 7, true, 1, 1, -50⟩] ++ c8_dummies

/-- Evaluation time: 5.4 days after the latest sighting. -/
def c8_now : Rat := 466560

/-- C8 counterexample: adding one more correct attempt at exactly the same
problem — leaving every other record, the latest-seen timestamp and the
wrong/similar counts unchanged — RAISES the score from 1/2 to 3/4: the
extra correct answer lengthens the spaced-repetition optimal interval,
moving the due factor from 351/290 (outside the 0.8-1.2 boost band) to
189/160 (inside it, a ×1.5 boost that outweighs the correct-count
penalty, already saturated at its 0.5 floor). -/
theorem C8_counterexample :
    evaluate_problem_difficulty c8_history_A c8_now 21 .sub 7 0 = 1/2 ∧
    evaluate_problem_difficulty c8_history_B c8_now 21 .sub 7 0 = 3/4 ∧
    ((1 : Rat)/2) < 3/4 := by
  refine ⟨by decide, by decide, by norm_num⟩

/-! ### The generated-problem invariant (C1, C2, C10) -/

/-- The invariant claimed for every generated problem: applying the
operator to the two displayed operands yields exactly the returned answer,
and a division problem has a nonzero divisor dividing the dividend
exactly. -/
def answer_ok (p : Problem) (a : Int) : Prop :=
  p.op.apply p.num1 p.num2 = a ∧ (p.op = .div → p.num2 ≠ 0 ∧ p.num2 ∣ p.num1)

theorem answer_ok_add (a b : Int) : answer_ok ⟨a, .add, b⟩ (a + b) :=
  ⟨rfl, fun h => Op.noConfusion h⟩

theorem answer_ok_add_comm (a b : Int) : answer_ok ⟨b, .add, a⟩ (a + b) :=
  ⟨add_comm b a, fun h => Op.noConfusion h⟩

theorem answer_ok_sub (a b : Int) : answer_ok ⟨a, .sub, b⟩ (a - b) :=
  ⟨rfl, fun h => Op.noConfusion h⟩

theorem answer_ok_mul (a b : Int) : answer_ok ⟨a, .mul, b⟩ (a * b) :=
  ⟨rfl, fun h => Op.noConfusion h⟩

theorem answer_ok_mul_comm (a b : Int) : answer_ok ⟨b, .mul, a⟩ (a * b) :=
  ⟨mul_comm b a, fun h => Op.noConfusion h⟩

theorem answer_ok_div (b q : Int) (hb : b ≠ 0) : answer_ok ⟨b * q, .div, b⟩ q :=
  ⟨Int.mul_ediv_cancel_left q hb, fun _ => ⟨hb, Dvd.intro q rfl⟩⟩

/-- The plain generator always satisfies the answer invariant, produces
positive operands, and (for addition) stays within `adjusted_max_val`. -/
theorem generate_problem_ok (operation : Op) (d : Nat) (an : Bool) (g : Rng) :
    (generate_problem operation d an g).1.1.op = operation ∧
    answer_ok (generate_problem operation d an g).1.1 (generate_problem operation d an g).1.2 ∧
    1 ≤ (generate_problem operation d an g).1.1.num1 ∧
    1 ≤ (generate_problem operation d an g).1.1.num2 ∧
    (operation = .add → (generate_problem operation d an g).1.1.num1 ≤ adjusted_max_val d ∧
      (generate_problem operation d an g).1.1.num2 ≤ adjusted_max_val d) := by
  have h1 : (1 : Int) ≤ adjusted_max_val d :=
    le_trans (by norm_num) (adjusted_max_val_ge_five d)
  cases operation with
  | add =>
      refine ⟨rfl, answer_ok_add _ _, le_randInt_fst _ _ _, le_randInt_fst _ _ _, ?_⟩
      exact fun _ => ⟨randInt_fst_le _ _ _ h1, randInt_fst_le _ _ _ h1⟩
  | sub =>
      refine ⟨rfl, answer_ok_sub _ _, le_randInt_fst _ _ _, ?_, fun h => Op.noConfusion h⟩
      show 1 ≤ (if !an then randInt 1 (randInt 1 (adjusted_max_val d) g).1
        (randInt 1 (adjusted_max_val d) g).2 else randInt 1 (adjusted_max_val d)
          (randInt 1 (adjusted_max_val d) g).2).1
      split
      · exact le_randInt_fst _ _ _
      · exact le_randInt_fst _ _ _
  | mul =>
      exact ⟨rfl, answer_ok_mul _ _, le_randInt_fst _ _ _, le_randInt_fst _ _ _,
        fun h => Op.noConfusion h⟩
  | div =>
      refine ⟨rfl, answer_ok_div _ _ ?_, ?_, le_randInt_fst _ _ _, fun h => Op.noConfusion h⟩
      · have ha := le_randInt_fst 1 (adjusted_max_val d) g
        show (randInt 1 (adjusted_max_val d) g).1 ≠ 0
        omega
      · have ha := le_randInt_fst 1 (adjusted_max_val d) g
        have hb := le_randInt_fst 1 (adjusted_max_val d)
          (randInt 1 (adjusted_max_val d) g).2
        show 1 ≤ (randInt 1 (adjusted_max_val d) g).1 *
          (randInt 1 (adjusted_max_val d) (randInt 1 (adjusted_max_val d) g).2).1
        nlinarith

theorem emod_ten_nonneg (n : Int) : 0 ≤ n % 10 := Int.emod_nonneg n (by norm_num)

theorem emod_ten_lt (n : Int) : n % 10 < 10 := Int.emod_lt_of_pos n (by norm_num)

/-- Every targeted problem satisfies the answer invariant, and every
pattern other than `zero_handling` yields positive operands. -/
theorem generate_targeted_problem_ok {pat : Pattern} {mv : Int} {an : Bool} {g : Rng}
    {pa : Problem × Int} (h : (generate_targeted_problem pat mv an g).1 = some pa) :
    answer_ok pa.1 pa.2 ∧ (pat ≠ .zero_handling → 1 ≤ pa.1.num1 ∧ 1 ≤ pa.1.num2) := by
  cases pat with
  | carrying =>
      simp only [generate_targeted_problem] at h
      injection h with h
      subst h
      dsimp only
      refine ⟨answer_ok_add _ _, fun _ => ⟨le_randInt_fst _ _ _, ?_⟩⟩
      have hm := emod_ten_lt (randInt 1 (min mv 90) g).1
      have := le_randInt_fst (10 - (randInt 1 (min mv 90) g).1 % 10) (min mv 99)
        (randInt 1 (min mv 90) g).2
      omega
  | borrowing =>
      simp only [generate_targeted_problem] at h
      have hn1 := le_randInt_fst 10 (min mv 99) g
      have hm0 := emod_ten_nonneg (randInt 10 (min mv 99) g).1
      have hn2 := le_randInt_fst ((randInt 10 (min mv 99) g).1 % 10 + 1)
        (min (randInt 10 (min mv 99) g).1 9 + 10) (randInt 10 (min mv 99) g).2
      split at h
      · injection h with h
        subst h
        dsimp only
        exact ⟨answer_ok_sub _ _, fun _ => ⟨by omega, by omega⟩⟩
      · injection h with h
        subst h
        dsimp only
        exact ⟨answer_ok_sub _ _, fun _ => ⟨by omega, by omega⟩⟩
  | multiplication_tables =>
      simp only [generate_targeted_problem] at h
      injection h with h
      subst h
      dsimp only
      have h1 := le_randInt_fst 2 (min mv 12) g
      have h2 := le_randInt_fst 2 (min mv 12) (randInt 2 (min mv 12) g).2
      exact ⟨answer_ok_mul _ _, fun _ => ⟨by omega, by omega⟩⟩
  | division_remainder =>
      simp only [generate_targeted_problem] at h
      injection h with h
      subst h
      dsimp only
      have h1 := le_randInt_fst 2 (min mv 12) g
      have h2 := le_randInt_fst 1 (mv / (randInt 2 (min mv 12) g).1)
        (randInt 2 (min mv 12) g).2
      refine ⟨answer_ok_div _ _ (by omega), fun _ => ⟨?_, by omega⟩⟩
      nlinarith
  | large_numbers =>
      simp only [generate_targeted_problem] at h
      split at h
      · exact absurd h (by simp)
      · rename_i hscale
        have hmv : 100 ≤ mv := by
          have h10 : (10 : Int) ≤ mv / 10 := by omega
          have := (Int.le_ediv_iff_mul_le (by norm_num : (0 : Int) < 10)).mp h10
          omega
        have hn1 := le_randInt_fst (min (mv / 10) 100) (min mv (min (mv / 10) 100 * 10)) g
        have hn2lo := le_randInt_fst 1 (min mv 20)
          (randInt (min (mv / 10) 100) (min mv (min (mv / 10) 100 * 10)) g).2
        have hn2hi := randInt_fst_le 1 (min mv 20)
          (randInt (min (mv / 10) 100) (min mv (min (mv / 10) 100 * 10)) g).2 (by omega)
        split at h
        · injection h with h
          subst h
          dsimp only
          exact ⟨answer_ok_add _ _, fun _ => ⟨by omega, by omega⟩⟩
        · split at h
          · injection h with h
            subst h
            dsimp only
            exact ⟨answer_ok_sub _ _, fun _ => ⟨by omega, by omega⟩⟩
          · injection h with h
            subst h
            dsimp only
            exact ⟨answer_ok_sub _ _, fun _ => ⟨by omega, by omega⟩⟩
        · split at h
          · rename_i hbig
            injection h with h
            subst h
            dsimp only
            refine ⟨answer_ok_mul _ _, fun _ => ⟨?_, by omega⟩⟩
            have : (1 : Int) ≤ mv / (randInt 1 (min mv 20)
                (randInt (min (mv / 10) 100) (min mv (min (mv / 10) 100 * 10)) g).2).1 := by
              rw [Int.le_ediv_iff_mul_le (by omega)]
              omega
            exact this
          · injection h with h
            subst h
            dsimp only
            exact ⟨answer_ok_mul _ _, fun _ => ⟨by omega, by omega⟩⟩
  | zero_handling =>
      simp only [generate_targeted_problem] at h
      refine ⟨?_, fun hne => absurd rfl hne⟩
      split at h
      · split at h
        · injection h with h
          subst h
          dsimp only
          exact answer_ok_add _ _
        · injection h with h
          subst h
          dsimp only
          exact answer_ok_add _ _
      · split at h
        · split at h
          · injection h with h
            subst h
            dsimp only
            exact answer_ok_sub _ _
          · injection h with h
            subst h
            dsimp only
            exact answer_ok_sub _ _
        · split at h
          · injection h with h
            subst h
            dsimp only
            exact answer_ok_sub _ _
          · injection h with h
            subst h
            dsimp only
            exact answer_ok_sub _ _
      · split at h
        · injection h with h
          subst h
          dsimp only
          exact answer_ok_mul _ _
        · injection h with h
          subst h
          dsimp only
          exact answer_ok_mul _ _

theorem randChoice_ge {c : Int} {l : List Int} {dflt : Int} (g : Rng) (hd : c ≤ dflt)
    (hl : ∀ x ∈ l, c ≤ x) : c ≤ (randChoice l dflt g).1 := by
  rcases Nat.lt_or_ge (g.next.1 % l.length) l.length with hlt | hge
  · exact hl _ (getD_mem_of_lt l _ dflt hlt)
  · show c ≤ l.getD (g.next.1 % l.length) dflt
    rw [List.getD_eq_getElem?_getD, List.getElem?_eq_none hge]
    exact hd

theorem mem_round_targets {x : Int}
    (hx : x ∈ ([10, 20, 50, 100, 200, 500, 1000] : List Int)) : 10 ≤ x := by
  fin_cases hx <;> norm_num

theorem add_edu_nums_ok {amv n1 n2 : Int} (g : Rng) (hamv : 10 ≤ amv)
    (h1 : 1 ≤ n1) (h1b : n1 ≤ amv) (h2 : 1 ≤ n2) (h2b : n2 ≤ amv) :
    1 ≤ (add_edu_nums amv n1 n2 g).1 ∧ (add_edu_nums amv n1 n2 g).1 ≤ amv ∧
    1 ≤ (add_edu_nums amv n1 n2 g).2.1 ∧ (add_edu_nums amv n1 n2 g).2.1 ≤ amv := by
  unfold add_edu_nums
  dsimp only
  split
  · by_cases hrv : (randFloat (randFloat g).2).1 < 1/2 ∧ 100 ≤ amv
    · rw [if_pos hrv, if_pos hrv.2]
      have hlo := le_randInt_fst 1 (min (100 - 1) amv) (randFloat (randFloat g).2).2
      have hhi := randInt_fst_le 1 (min (100 - 1) amv) (randFloat (randFloat g).2).2
        (by omega)
      have h100 : (100 : Int) ≤ amv := hrv.2
      dsimp only
      omega
    · rw [if_neg hrv, if_pos hamv]
      have hlo := le_randInt_fst 1 (min (10 - 1) amv) (randFloat (randFloat g).2).2
      have hhi := randInt_fst_le 1 (min (10 - 1) amv) (randFloat (randFloat g).2).2
        (by omega)
      dsimp only
      omega
  · exact ⟨h1, h1b, h2, h2b⟩

theorem add_variation_ok {ds : Op → Nat} {d : Nat} {amv n1 n2 ans : Int} {g : Rng}
    {t : Int × Int × Int} (h1 : 1 ≤ n1) (h2 : 1 ≤ n2) (hans : ans = n1 + n2)
    (h : (add_variation ds d amv n1 n2 ans g).1 = some t) :
    1 ≤ t.1 ∧ 1 ≤ t.2.1 ∧ t.2.2 = t.1 + t.2.1 ∧
    (¬ 1 < d → t.1 = n1 ∧ t.2.1 = n2) := by
  unfold add_variation at h
  dsimp only at h
  split at h
  · rename_i hc
    split at h
    · injection h with h
      subst h
      exact ⟨h1, h2, hans, fun hd => absurd hc.2 hd⟩
    · rename_i hne
      split at h
      · exact absurd h (by simp)
      · injection h with h
        subst h
        dsimp only
        set suitable := ([10, 20, 50, 100, 200, 500, 1000] : List Int).filter
          (fun t => decide (t ≤ amv * 2)) with hsuit
        have hrt : (10 : Int) ≤ (randChoice suitable 10 (randFloat g).2).1 := by
          refine randChoice_ge _ (by norm_num) ?_
          intro x hx
          exact mem_round_targets (List.mem_filter.mp hx).1
        have hlo := le_randInt_fst 1 ((randChoice suitable 10 (randFloat g).2).1 - 1)
          (randChoice suitable 10 (randFloat g).2).2
        have hhi := randInt_fst_le 1 ((randChoice suitable 10 (randFloat g).2).1 - 1)
          (randChoice suitable 10 (randFloat g).2).2 (by omega)
        refine ⟨by omega, by omega, by omega, fun hd => absurd hc.2 hd⟩
  · injection h with h
    subst h
    exact ⟨h1, h2, hans, fun _ => ⟨rfl, rfl⟩⟩

theorem smart_add_candidate_ok {ds : Op → Nat} {d : Nat} {amv : Int} {ef : Bool} {g : Rng}
    {pa : Problem × Int} (hamv : 10 ≤ amv)
    (h : (smart_add_candidate ds d amv ef g).1 = some pa) :
    pa.1.op = .add ∧ answer_ok pa.1 pa.2 ∧ 1 ≤ pa.1.num1 ∧ 1 ≤ pa.1.num2 ∧
    (¬ 1 < d → pa.1.num1 ≤ amv ∧ pa.1.num2 ≤ amv) := by
  unfold smart_add_candidate at h
  dsimp only at h
  split at h
  · exact absurd h (by simp)
  · set st1 := (if ef then add_edu_nums amv (randInt 1 amv g).1
        (randInt 1 amv (randInt 1 amv g).2).1 (randInt 1 amv (randInt 1 amv g).2).2
      else ((randInt 1 amv g).1, (randInt 1 amv (randInt 1 amv g).2).1,
        (randInt 1 amv (randInt 1 amv g).2).2)) with hst1
    have hst : 1 ≤ st1.1 ∧ st1.1 ≤ amv ∧ 1 ≤ st1.2.1 ∧ st1.2.1 ≤ amv := by
      rw [hst1]
      split
      · exact add_edu_nums_ok _ hamv (le_randInt_fst _ _ _)
          (randInt_fst_le _ _ _ (by omega)) (le_randInt_fst _ _ _)
          (randInt_fst_le _ _ _ (by omega))
      · exact ⟨le_randInt_fst _ _ _, randInt_fst_le _ _ _ (by omega),
          le_randInt_fst _ _ _, randInt_fst_le _ _ _ (by omega)⟩
    split at h
    · exact absurd h (by simp)
    · rename_i nna g2 heq
      have hfacts : 1 ≤ nna.1 ∧ 1 ≤ nna.2.1 ∧ nna.2.2 = nna.1 + nna.2.1 ∧
          (¬ 1 < d → nna.1 = st1.1 ∧ nna.2.1 = st1.2.1) := by
        by_cases hef : (!ef) = true
        · rw [if_pos hef] at heq
          exact add_variation_ok hst.1 hst.2.2.1 rfl (by rw [heq])
        · rw [if_neg hef] at heq
          injection heq with heq1 _
          injection heq1 with heq1
          subst heq1
          exact ⟨hst.1, hst.2.2.1, rfl, fun _ => ⟨rfl, rfl⟩⟩
      split at h
      · injection h with h
        subst h
        refine ⟨rfl, ?_, hfacts.2.1, hfacts.1, ?_⟩
        · have hc := answer_ok_add_comm nna.1 nna.2.1
          dsimp only
          rw [hfacts.2.2.1]
          exact hc
        · intro hd
          rcases hfacts.2.2.2 hd with ⟨e1, e2⟩
          dsimp only
          rw [e1, e2]
          exact ⟨hst.2.2.2, hst.2.1⟩
      · injection h with h
        subst h
        refine ⟨rfl, ?_, hfacts.1, hfacts.2.1, ?_⟩
        · have hc := answer_ok_add nna.1 nna.2.1
          dsimp only
          rw [hfacts.2.2.1]
          exact hc
        · intro hd
          rcases hfacts.2.2.2 hd with ⟨e1, e2⟩
          dsimp only
          rw [e1, e2]
          exact ⟨hst.2.1, hst.2.2.2⟩

theorem sub_draw_num2_ge (an : Bool) (amv n1 : Int) (g : Rng) :
    1 ≤ (sub_draw_num2 an amv n1 g).1 := by
  unfold sub_draw_num2
  split
  · exact le_randInt_fst _ _ _
  · exact le_randInt_fst _ _ _

theorem sub_edu_num1_ge {an : Bool} {amv n1 : Int} (g : Rng) (h1 : 1 ≤ n1) :
    1 ≤ (sub_edu_num1 an amv n1 g).1 := by
  unfold sub_edu_num1
  dsimp only
  repeat' split
  all_goals first
    | exact h1
    | (exfalso; simp_all; done)
    | (refine randChoice_ge _ (by norm_num) ?_
       intro x hx
       first
         | (fin_cases hx <;> norm_num; done)
         | (split_ifs at hx <;> fin_cases hx <;> norm_num; done))

theorem sub_variation_ok {d : Nat} {amv n1 : Int} {an : Bool} (g : Rng) (h1 : 1 ≤ n1) :
    1 ≤ (sub_variation d amv n1 an g).1 ∧ 1 ≤ (sub_variation d amv n1 an g).2.1 := by
  unfold sub_variation
  dsimp only
  repeat' split
  all_goals refine ⟨?_, ?_⟩
  all_goals first
    | exact h1
    | exact sub_draw_num2_ge _ _ _ _
    | exact le_randInt_fst _ _ _
    | (exfalso; simp_all; done)
    | (refine randChoice_ge _ (by norm_num) ?_
       intro x hx
       have := mem_round_targets (List.mem_filter.mp hx).1
       omega)

theorem smart_sub_candidate_ok {ds : Op → Nat} {d : Nat} {amv : Int} {an ef : Bool}
    {g : Rng} {pa : Problem × Int}
    (h : (smart_sub_candidate ds d amv an ef g).1 = some pa) :
    pa.1.op = .sub ∧ answer_ok pa.1 pa.2 ∧ 1 ≤ pa.1.num1 ∧ 1 ≤ pa.1.num2 := by
  unfold smart_sub_candidate at h
  dsimp only at h
  set st1 := (if ef then sub_edu_num1 an amv (randInt 1 amv g).1 (randInt 1 amv g).2
    else ((randInt 1 amv g).1, (randInt 1 amv g).2)) with hst1
  have hst : 1 ≤ st1.1 := by
    rw [hst1]
    split
    · exact sub_edu_num1_ge _ (le_randInt_fst _ _ _)
    · exact le_randInt_fst _ _ _
  set st2 := (if !ef then sub_variation d amv st1.1 an st1.2
    else (st1.1, (sub_draw_num2 an amv st1.1 st1.2).1,
      (sub_draw_num2 an amv st1.1 st1.2).2)) with hst2
  have hs2 : 1 ≤ st2.1 ∧ 1 ≤ st2.2.1 := by
    rw [hst2]
    split
    · exact sub_variation_ok _ hst
    · exact ⟨hst, sub_draw_num2_ge _ _ _ _⟩
  split at h
  · exact absurd h (by simp)
  · injection h with h
    subst h
    exact ⟨rfl, answer_ok_sub st2.1 st2.2.1, hs2.1, hs2.2⟩

theorem mul_edu_nums_ok (amv : Int) (g : Rng) :
    2 ≤ (mul_edu_nums amv g).1 ∧ 2 ≤ (mul_edu_nums amv g).2.1 := by
  unfold mul_edu_nums
  dsimp only
  repeat' split
  all_goals refine ⟨?_, ?_⟩
  all_goals first
    | exact le_randInt_fst _ _ _
    | (norm_num; done)
    | (exfalso; simp_all; done)
    | (refine randChoice_ge _ (by norm_num) ?_
       intro x hx
       first
         | (fin_cases hx <;> norm_num; done)
         | (split_ifs at hx <;> fin_cases hx <;> norm_num; done))

theorem mul_std_nums_ok (d : Nat) (amv : Int) (g : Rng) :
    2 ≤ (mul_std_nums d amv g).1 ∧ 2 ≤ (mul_std_nums d amv g).2.1 := by
  unfold mul_std_nums
  dsimp only
  repeat' split
  all_goals refine ⟨?_, ?_⟩
  all_goals first
    | exact le_randInt_fst _ _ _
    | (norm_num; done)
    | (exfalso; simp_all; done)
    | (refine randChoice_ge _ (by norm_num) ?_
       intro x hx
       first
         | (fin_cases hx <;> norm_num; done)
         | (split_ifs at hx <;> fin_cases hx <;> norm_num; done))

theorem smart_mul_candidate_ok {ds : Op → Nat} {d : Nat} {amv : Int} {ef : Bool}
    {g : Rng} {pa : Problem × Int}
    (h : (smart_mul_candidate ds d amv ef g).1 = some pa) :
    pa.1.op = .mul ∧ answer_ok pa.1 pa.2 ∧ 1 ≤ pa.1.num1 ∧ 1 ≤ pa.1.num2 := by
  unfold smart_mul_candidate at h
  dsimp only at h
  set step := (if ef then mul_edu_nums amv g else mul_std_nums d amv g) with hstep
  have hs : 2 ≤ step.1 ∧ 2 ≤ step.2.1 := by
    rw [hstep]
    split
    · exact mul_edu_nums_ok amv g
    · exact mul_std_nums_ok d amv g
  split at h
  · exact absurd h (by simp)
  · split at h
    · injection h with h
      subst h
      refine ⟨rfl, answer_ok_mul_comm step.1 step.2.1, ?_, ?_⟩
      · dsimp only
        omega
      · dsimp only
        omega
    · injection h with h
      subst h
      refine ⟨rfl, answer_ok_mul step.1 step.2.1, ?_, ?_⟩
      · dsimp only
        omega
      · dsimp only
        omega

theorem div_edu_nums_ok (amv : Int) (g : Rng) :
    2 ≤ (div_edu_nums amv g).1 ∧ 2 ≤ (div_edu_nums amv g).2.1 := by
  unfold div_edu_nums
  dsimp only
  repeat' split
  all_goals refine ⟨?_, ?_⟩
  all_goals first
    | exact le_randInt_fst _ _ _
    | (norm_num; done)
    | (exfalso; simp_all; done)
    | (refine randChoice_ge _ (by norm_num) ?_
       intro x hx
       first
         | (fin_cases hx <;> norm_num; done)
         | (split_ifs at hx <;> fin_cases hx <;> norm_num; done))

theorem div_std_nums_ok (d : Nat) (amv : Int) (g : Rng) :
    2 ≤ (div_std_nums d amv g).1 ∧ 2 ≤ (div_std_nums d amv g).2.1 := by
  unfold div_std_nums
  dsimp only
  repeat' split
  all_goals refine ⟨?_, ?_⟩
  all_goals first
    | exact le_randInt_fst _ _ _
    | (norm_num; done)
    | (exfalso; simp_all; done)
    | (refine randChoice_ge _ (by norm_num) ?_
       intro x hx
       first
         | (fin_cases hx <;> norm_num; done)
         | (split_ifs at hx <;> fin_cases hx <;> norm_num; done))

theorem smart_div_candidate_ok {ds : Op → Nat} {d : Nat} {amv : Int} {ef : Bool}
    {g : Rng} {pa : Problem × Int}
    (h : (smart_div_candidate ds d amv ef g).1 = some pa) :
    pa.1.op = .div ∧ answer_ok pa.1 pa.2 ∧ 1 ≤ pa.1.num1 ∧ 1 ≤ pa.1.num2 := by
  unfold smart_div_candidate at h
  dsimp only at h
  set step := (if ef then div_edu_nums amv g else div_std_nums d amv g) with hstep
  have hs : 2 ≤ step.1 ∧ 2 ≤ step.2.1 := by
    rw [hstep]
    split
    · exact div_edu_nums_ok amv g
    · exact div_std_nums_ok d amv g
  split at h
  · exact absurd h (by simp)
  · injection h with h
    subst h
    refine ⟨rfl, answer_ok_div step.1 step.2.1 (by omega), ?_, ?_⟩
    · dsimp only
      nlinarith [hs.1, hs.2]
    · dsimp only
      omega

theorem smart_branch_ok {ds : Op → Nat} {operation : Op} {d : Nat} {amv : Int}
    {an ef : Bool} {g : Rng} {pa : Problem × Int} (hamv : 10 ≤ amv)
    (h : (smart_branch ds operation d amv an ef g).1 = some pa) :
    pa.1.op = operation ∧ answer_ok pa.1 pa.2 ∧ 1 ≤ pa.1.num1 ∧ 1 ≤ pa.1.num2 ∧
    (¬ 1 < d → operation = .add → pa.1.num1 ≤ amv ∧ pa.1.num2 ≤ amv) := by
  cases operation with
  | add =>
      have t := smart_add_candidate_ok hamv h
      exact ⟨t.1, t.2.1, t.2.2.1, t.2.2.2.1, fun hd _ => t.2.2.2.2 hd⟩
  | sub =>
      have t := smart_sub_candidate_ok h
      exact ⟨t.1, t.2.1, t.2.2.1, t.2.2.2, fun _ hcon => Op.noConfusion hcon⟩
  | mul =>
      have t := smart_mul_candidate_ok h
      exact ⟨t.1, t.2.1, t.2.2.1, t.2.2.2, fun _ hcon => Op.noConfusion hcon⟩
  | div =>
      have t := smart_div_candidate_ok h
      exact ⟨t.1, t.2.1, t.2.2.1, t.2.2.2, fun _ hcon => Op.noConfusion hcon⟩

theorem targetedLoop_mem {pd : List Entry} {now : Rat} {ds : Op → Nat} {d : Nat}
    {pat : Pattern} {amv : Int} {an : Bool} :
    ∀ (fuel : Nat) (g : Rng) (c : Cand),
      c ∈ (targetedLoop pd now ds d pat amv an fuel g).1 →
      answer_ok c.1 c.2.1 ∧ (pat ≠ .zero_handling → 1 ≤ c.1.num1 ∧ 1 ≤ c.1.num2) := by
  intro fuel
  induction fuel with
  | zero =>
      intro g c hc
      simp [targetedLoop] at hc
  | succ n ih =>
      intro g c hc
      unfold targetedLoop at hc
      split at hc
      · simp at hc
      · rename_i pa g2 heq
        split at hc
        · exact ih _ _ hc
        · rcases List.mem_cons.mp hc with rfl | hmem
          · exact generate_targeted_problem_ok
              (show (generate_targeted_problem pat amv an g).1 = some pa by rw [heq])
          · exact ih _ _ hmem

theorem regularLoop_mem {pd : List Entry} {now : Rat} {ds : Op → Nat} {operation : Op}
    {d : Nat} {amv : Int} {an ef : Bool} (hamv : 10 ≤ amv) :
    ∀ (fuel : Nat) (cands : List Cand) (g : Rng) (c : Cand),
      c ∈ (regularLoop pd now ds operation d amv an ef fuel cands g).1 →
      c ∈ cands ∨ (c.1.op = operation ∧ answer_ok c.1 c.2.1 ∧ 1 ≤ c.1.num1 ∧
        1 ≤ c.1.num2 ∧ (¬ 1 < d → operation = .add → c.1.num1 ≤ amv ∧ c.1.num2 ≤ amv)) := by
  intro fuel
  induction fuel with
  | zero =>
      intro cands g c hc
      exact Or.inl (by simpa [regularLoop] using hc)
  | succ n ih =>
      intro cands g c hc
      unfold regularLoop at hc
      split at hc
      · exact Or.inl hc
      · split at hc
        · exact ih _ _ _ hc
        · rename_i pa g2 heq
          rcases ih _ _ _ hc with hin | hfact
          · rcases List.mem_append.mp hin with hold | hnew
            · exact Or.inl hold
            · have hc2 : c = (pa.1, pa.2, regular_candidate_score pd now d pa.1) := by
                simpa using hnew
              subst hc2
              exact Or.inr (smart_branch_ok hamv
                (show (smart_branch ds operation d amv an ef g).1 = some pa by rw [heq]))
          · exact Or.inr hfact

theorem select_candidate_ok {operation : Op} {d : Nat} {an : Bool}
    {cands : List Cand} {g : Rng} (Q : Problem → Int → Prop)
    (hQ : ∀ c ∈ cands, Q c.1 c.2.1)
    (hgen : ∀ g2, Q (generate_problem operation d an g2).1.1
      (generate_problem operation d an g2).1.2) :
    Q (select_candidate operation d an cands g).1.1
      (select_candidate operation d an cands g).1.2 := by
  unfold select_candidate
  dsimp only
  split
  · exact hgen g
  · rename_i hlen
    have hpos : 0 < cands.length := by omega
    split
    · exact hQ _ (getD_mem_of_lt _ _ _ (Nat.mod_lt _ hpos))
    · exact hQ _ (getD_mem_of_lt _ _ _ hpos)


theorem smart_finish_ok (pd : List Entry) (ds : Op → Nat) (now : Rat) (operation : Op)
    (d : Nat) (an : Bool) (T : List Cand × Rng) (Q : Problem → Int → Prop)
    (hT : ∀ c ∈ T.1, Q c.1 c.2.1)
    (hreg : ∀ c : Cand, (c.1.op = operation ∧ answer_ok c.1 c.2.1 ∧ 1 ≤ c.1.num1 ∧
      1 ≤ c.1.num2 ∧ (¬ 1 < d → operation = .add →
        c.1.num1 ≤ smart_adjusted_max_val d ∧ c.1.num2 ≤ smart_adjusted_max_val d)) →
      Q c.1 c.2.1)
    (hgen : ∀ g2, Q (generate_problem operation d an g2).1.1
      (generate_problem operation d an g2).1.2) :
    Q (smart_finish pd ds now operation d an T).1.1
      (smart_finish pd ds now operation d an T).1.2 := by
  unfold smart_finish
  dsimp only
  refine select_candidate_ok Q ?_ hgen
  intro c hc
  rcases regularLoop_mem (le_max_right _ _) 50 _ _ c hc with hin | hf
  · exact hT c hin
  · exact hreg c hf

/-- Master invariant of the smart generator: the returned problem always
satisfies the answer invariant, and when the history does not trigger the
`zero_handling` pattern both operands are positive. -/
theorem smart_generate_problem_ok (pd : List Entry) (ds : Op → Nat) (now : Rat)
    (operation : Op) (d : Nat) (an : Bool) (g : Rng) :
    answer_ok (smart_generate_problem pd ds now operation d an g).1.1
      (smart_generate_problem pd ds now operation d an g).1.2 ∧
    (check_error_patterns pd ≠ some .zero_handling →
      1 ≤ (smart_generate_problem pd ds now operation d an g).1.1.num1 ∧
      1 ≤ (smart_generate_problem pd ds now operation d an g).1.1.num2) := by
  unfold smart_generate_problem
  rcases hpat : check_error_patterns pd with _ | pat
  · dsimp only
    have key := smart_finish_ok pd ds now operation d an ([], g)
      (fun p a => answer_ok p a ∧ 1 ≤ p.num1 ∧ 1 ≤ p.num2)
      (by intro c hc; simp at hc)
      (fun c hf => ⟨hf.2.1, hf.2.2.1, hf.2.2.2.1⟩)
      (fun g2 => by
        have gp := generate_problem_ok operation d an g2
        exact ⟨gp.2.1, gp.2.2.1, gp.2.2.2.1⟩)
    exact ⟨key.1, fun _ => key.2⟩
  · dsimp only
    have hne : some pat ≠ some Pattern.zero_handling → pat ≠ Pattern.zero_handling :=
      fun hdet hz => hdet (by rw [hz])
    split
    · have key := smart_finish_ok pd ds now operation d an
        (targetedLoop pd now ds d pat (smart_adjusted_max_val d) an 25 (randFloat g).2)
        (fun p a => answer_ok p a ∧ (pat ≠ .zero_handling → 1 ≤ p.num1 ∧ 1 ≤ p.num2))
        (fun c hc => targetedLoop_mem 25 _ c hc)
        (fun c hf => ⟨hf.2.1, fun _ => ⟨hf.2.2.1, hf.2.2.2.1⟩⟩)
        (fun g2 => by
          have gp := generate_problem_ok operation d an g2
          exact ⟨gp.2.1, fun _ => ⟨gp.2.2.1, gp.2.2.2.1⟩⟩)
      exact ⟨key.1, fun hdet => key.2 (hne hdet)⟩
    · have key := smart_finish_ok pd ds now operation d an ([], (randFloat g).2)
        (fun p a => answer_ok p a ∧ 1 ≤ p.num1 ∧ 1 ≤ p.num2)
        (by intro c hc; simp at hc)
        (fun c hf => ⟨hf.2.1, hf.2.2.1, hf.2.2.2.1⟩)
        (fun g2 => by
          have gp := generate_problem_ok operation d an g2
          exact ⟨gp.2.1, gp.2.2.1, gp.2.2.2.1⟩)
      exact ⟨key.1, fun _ => key.2⟩

/-- C1: for every problem returned by any generation path — the plain
generator, the targeted generator, and the smart selection path with all
its educational and swap variations — applying the problem's operator to
its two operands yields exactly the returned answer, and every division
problem has a nonzero divisor dividing the dividend exactly. -/
theorem C1_generated_answer_invariant :
    (∀ operation d an g, answer_ok (generate_problem operation d an g).1.1
      (generate_problem operation d an g).1.2) ∧
    (∀ pat mv an g pa, (generate_targeted_problem pat mv an g).1 = some pa →
      answer_ok pa.1 pa.2) ∧
    (∀ pd ds now operation d an g,
      answer_ok (smart_generate_problem pd ds now operation d an g).1.1
        (smart_generate_problem pd ds now operation d an g).1.2) :=
  ⟨fun operation d an g => (generate_problem_ok operation d an g).2.1,
   fun _ _ _ _ _ h => (generate_targeted_problem_ok h).1,
   fun pd ds now operation d an g => (smart_generate_problem_ok pd ds now operation d an g).1⟩

/-- C1 witness: the targeted-generation clause instantiated at a concrete
carrying problem produced from the draw stream `[0, 0]`. -/
theorem C1_witness : answer_ok ⟨1, .add, 9⟩ 10 :=
  C1_generated_answer_invariant.2.1 .carrying 10 true [0, 0] (⟨1, .add, 9⟩, 10) (by decide)

/-- The draw stream for the C2 counterexample: educational focus declined,
25 addition candidates each drawn as `6 + 6` with no swap, then selection
index 0. -/
def c2_rng : Rng := [999] ++ (List.replicate 25 [5, 5, 999, 999]).flatten ++ [0]

/-- C2 counterexample: with empty history, addition difficulty 1 and
negatives allowed, the smart path can return the problem `6 + 6` — an
operand greater than 5 — because it floors its range at 10
(`adjusted_max_val = max(int(5 * 1.1 ** 0), 10) = 10`). -/
theorem C2_counterexample :
    (smart_generate_problem [] (fun _ => 1) 0 .add 1 true c2_rng).1 = (⟨6, .add, 6⟩, 12) ∧
    ¬((6 : Int) ≤ 5) :=
  ⟨by decide, by decide⟩

/-- C2 amended: with an empty history, difficulty 1 for addition and
negatives allowed, every problem returned by the smart selection path is an
addition with both operands at least 1 and at most 10 (the smart path's
range floor), and its answer equals the sum of the two operands. -/
theorem C2_amended_smart_addition_range : ∀ (now : Rat) (g : Rng),
    (smart_generate_problem [] (fun _ => 1) now .add 1 true g).1.1.op = .add ∧
    1 ≤ (smart_generate_problem [] (fun _ => 1) now .add 1 true g).1.1.num1 ∧
    (smart_generate_problem [] (fun _ => 1) now .add 1 true g).1.1.num1 ≤ 10 ∧
    1 ≤ (smart_generate_problem [] (fun _ => 1) now .add 1 true g).1.1.num2 ∧
    (smart_generate_problem [] (fun _ => 1) now .add 1 true g).1.1.num2 ≤ 10 ∧
    (smart_generate_problem [] (fun _ => 1) now .add 1 true g).1.2 =
      (smart_generate_problem [] (fun _ => 1) now .add 1 true g).1.1.num1 +
      (smart_generate_problem [] (fun _ => 1) now .add 1 true g).1.1.num2 := by
  intro now g
  have hdetect : check_error_patterns [] = none := rfl
  unfold smart_generate_problem
  rw [hdetect]
  dsimp only
  have hamv10 : smart_adjusted_max_val 1 = 10 := by decide
  have key := smart_finish_ok [] (fun _ => 1) now .add 1 true ([], g)
    (fun p a => p.op = .add ∧ 1 ≤ p.num1 ∧ p.num1 ≤ 10 ∧ 1 ≤ p.num2 ∧ p.num2 ≤ 10 ∧
      a = p.num1 + p.num2)
    (by intro c hc; simp at hc)
    (fun c hf => by
      have hb := hf.2.2.2.2 (by omega) rfl
      rw [hamv10] at hb
      refine ⟨hf.1, hf.2.2.1, hb.1, hf.2.2.2.1, hb.2, ?_⟩
      have ha := hf.2.1.1
      rw [hf.1] at ha
      exact ha.symm)
    (fun g2 => by
      have gp := generate_problem_ok .add 1 true g2
      have h5 : adjusted_max_val 1 = 5 := by decide
      have hb := gp.2.2.2.2 rfl
      rw [h5] at hb
      refine ⟨gp.1, gp.2.2.1, by omega, gp.2.2.2.1, by omega, ?_⟩
      have ha := gp.2.1.1
      rw [gp.1] at ha
      exact ha.symm)
  exact key

/-- A history with no zero operand can never make `check_error_patterns`
return the `zero_handling` pattern: its tally stays 0, below the 20%
threshold required of at least 3 errors. -/
theorem detect_not_zero {pd : List Entry} (hz : ∀ e ∈ pd, e.num1 ≠ 0 ∧ e.num2 ≠ 0) :
    check_error_patterns pd ≠ some .zero_handling := by
  intro hdet
  unfold check_error_patterns at hdet
  split at hdet
  · exact Option.noConfusion hdet
  · split at hdet
    · exact Option.noConfusion hdet
    · rename_i hlen3
      split at hdet
      · rename_i hcond
        injection hdet with hdet
        have hcount : patternCount pd .zero_handling = 0 := by
          unfold patternCount
          rw [List.length_eq_zero, List.filter_eq_nil_iff]
          intro e he
          rcases hz e (List.drop_subset _ _ (List.mem_filter.mp he).1) with ⟨h1, h2⟩
          simp [tally, h1, h2]
        rw [hdet, hcount] at hcond
        have h3 : (3 : Rat) ≤ ((recent_errors pd).length : Rat) := by
          have : 3 ≤ (recent_errors pd).length := by omega
          exact_mod_cast this
        push_cast at hcond
        linarith
      · exact Option.noConfusion hdet

/-- A history whose division records are all exact can never make
`check_error_patterns` return the `division_remainder` pattern. -/
theorem detect_not_remainder {pd : List Entry}
    (hx : ∀ e ∈ pd, e.op = .div → e.num2 ∣ e.num1) :
    check_error_patterns pd ≠ some .division_remainder := by
  intro hdet
  unfold check_error_patterns at hdet
  split at hdet
  · exact Option.noConfusion hdet
  · split at hdet
    · exact Option.noConfusion hdet
    · rename_i hlen3
      split at hdet
      · rename_i hcond
        injection hdet with hdet
        have hcount : patternCount pd .division_remainder = 0 := by
          unfold patternCount
          rw [List.length_eq_zero, List.filter_eq_nil_iff]
          intro e he
          have hepd : e ∈ pd := List.drop_subset _ _ (List.mem_filter.mp he).1
          simp only [tally, decide_eq_true_eq, not_and]
          intro hop
          have hdvd := hx e hepd hop
          simp [Int.emod_eq_zero_of_dvd hdvd]
        rw [hdet, hcount] at hcond
        have h3 : (3 : Rat) ≤ ((recent_errors pd).length : Rat) := by
          have : 3 ≤ (recent_errors pd).length := by omega
          exact_mod_cast this
        push_cast at hcond
        linarith
      · exact Option.noConfusion hdet

/-- The histories reachable by the game loop: any starting history with no
zero operand, extended by records whose operands come from
`smart_generate_problem` on the current history (which is what
`log_attempt` appends in `main_game`). -/
inductive Reachable : List Entry → Prop where
  | init : ∀ pd, (∀ e ∈ pd, e.num1 ≠ 0 ∧ e.num2 ≠ 0) → Reachable pd
  | step : ∀ pd ds now operation d an g correct t dlog ts, Reachable pd →
      Reachable (pd ++ [⟨(smart_generate_problem pd ds now operation d an g).1.1.num1,
        (smart_generate_problem pd ds now operation d an g).1.1.op,
        (smart_generate_problem pd ds now operation d an g).1.1.num2,
        correct, t, dlog, ts⟩])

/-- C10: the plain generator and every non-targeted smart path produce
operands ≥ 1; targeted generation produces operands ≥ 1 for every pattern
except `zero_handling`; a history without zero operands never detects
`zero_handling` (and with exact divisions never detects
`division_remainder`); and along every game run starting from a history
with no zero operand, no reachable history ever detects `zero_handling`,
so targeted zero-handling generation never triggers. -/
theorem C10_zero_handling_unreachable :
    (∀ operation d an g, 1 ≤ (generate_problem operation d an g).1.1.num1 ∧
      1 ≤ (generate_problem operation d an g).1.1.num2) ∧
    (∀ pat mv an g pa, (generate_targeted_problem pat mv an g).1 = some pa →
      pat ≠ .zero_handling → 1 ≤ pa.1.num1 ∧ 1 ≤ pa.1.num2) ∧
    (∀ pd ds now operation d an g, check_error_patterns pd ≠ some .zero_handling →
      1 ≤ (smart_generate_problem pd ds now operation d an g).1.1.num1 ∧
      1 ≤ (smart_generate_problem pd ds now operation d an g).1.1.num2) ∧
    (∀ pd, (∀ e ∈ pd, e.num1 ≠ 0 ∧ e.num2 ≠ 0) →
      check_error_patterns pd ≠ some .zero_handling) ∧
    (∀ pd, (∀ e ∈ pd, e.op = .div → e.num2 ∣ e.num1) →
      check_error_patterns pd ≠ some .division_remainder) ∧
    (∀ pd, Reachable pd → (∀ e ∈ pd, e.num1 ≠ 0 ∧ e.num2 ≠ 0) ∧
      check_error_patterns pd ≠ some .zero_handling) := by
  refine ⟨?_, ?_, ?_, ?_, ?_, ?_⟩
  · intro operation d an g
    have gp := generate_problem_ok operation d an g
    exact ⟨gp.2.2.1, gp.2.2.2.1⟩
  · intro pat mv an g pa h hne
    exact (generate_targeted_problem_ok h).2 hne
  · intro pd ds now operation d an g hdet
    exact (smart_generate_problem_ok pd ds now operation d an g).2 hdet
  · intro pd hz
    exact detect_not_zero hz
  · intro pd hx
    exact detect_not_remainder hx
  · intro pd hr
    induction hr with
    | init pd h => exact ⟨h, detect_not_zero h⟩
    | step pd ds now operation d an g correct t dlog ts hr ih =>
        have hsm := (smart_generate_problem_ok pd ds now operation d an g).2 ih.2
        have hz2 : ∀ e ∈ pd ++
            [⟨(smart_generate_problem pd ds now operation d an g).1.1.num1,
              (smart_generate_problem pd ds now operation d an g).1.1.op,
              (smart_generate_problem pd ds now operation d an g).1.1.num2,
              correct, t, dlog, ts⟩], e.num1 ≠ 0 ∧ e.num2 ≠ 0 := by
          intro e he
          rcases List.mem_append.mp he with h1 | h2
          · exact ih.1 e h1
          · have he2 : e = ⟨(smart_generate_problem pd ds now operation d an g).1.1.num1,
              (smart_generate_problem pd ds now operation d an g).1.1.op,
              (smart_generate_problem pd ds now operation d an g).1.1.num2,
              correct, t, dlog, ts⟩ := by simpa using h2
            subst he2
            exact ⟨by have := hsm.1; dsimp only; omega, by have := hsm.2; dsimp only; omega⟩
        exact ⟨hz2, detect_not_zero hz2⟩

/-- C10 witness: the reachability clause at the empty initial history and
the smart-path positivity clause at a concrete call. -/
theorem C10_witness :
    ((∀ e ∈ ([] : List Entry), e.num1 ≠ 0 ∧ e.num2 ≠ 0) ∧
      check_error_patterns [] ≠ some .zero_handling) ∧
    (1 ≤ (smart_generate_problem [] (fun _ => 1) 0 .add 1 true c2_rng).1.1.num1 ∧
      1 ≤ (smart_generate_problem [] (fun _ => 1) 0 .add 1 true c2_rng).1.1.num2) :=
  ⟨C10_zero_handling_unreachable.2.2.2.2.2 [] (Reachable.init [] (by simp)),
   C10_zero_handling_unreachable.2.2.1 [] (fun _ => 1) 0 .add 1 true c2_rng (by decide)⟩
